import Mathlib

/-!
Verification of the `poml` Python orchestration layer (`python/poml/api.py`)
via a shallow embedding in Lean 4.  Module-level mutable state becomes an
explicit `TraceState` value; filesystem and subprocess effects become fields
of an explicit `World` record; Python exceptions become `Except`.
-/

namespace Poml

/-- A broken clock value: components of `datetime.now()` used by
`strftime("%Y%m%d%H%M%S%f")`. -/
structure Clock where
  year : Nat
  month : Nat
  day : Nat
  hour : Nat
  minute : Nat
  second : Nat
  micro : Nat
deriving Repr, DecidableEq

/-- Fuel-driven decimal digit expansion (most significant first); any fuel
of at least the digit count gives the full expansion. -/
def decDigitsAux : Nat → Nat → List Char
  | 0, _ => []
  | fuel + 1, n =>
      if n < 10 then [Char.ofNat (48 + n)]
      else decDigitsAux fuel (n / 10) ++ [Char.ofNat (48 + n % 10)]

/-- The decimal digit characters of `n`, most significant first. -/
def decDigits (n : Nat) : List Char := decDigitsAux (n + 1) n

/-- Zero-pad the decimal digits of `n` to width `w`
(identity when the representation is already at least `w` long). -/
def padDec (w : Nat) (n : Nat) : List Char :=
  List.replicate (w - (decDigits n).length) '0' ++ decDigits n

/-- `datetime.now().strftime("%Y%m%d%H%M%S%f")`: year (4), month (2), day (2),
hour (2), minute (2), second (2), microsecond (6), each zero-padded. -/
def strftimeTs (c : Clock) : String :=
  String.mk (padDec 4 c.year ++ padDec 2 c.month ++ padDec 2 c.day ++
    padDec 2 c.hour ++ padDec 2 c.minute ++ padDec 2 c.second ++ padDec 6 c.micro)

/-- The module-level tracing state of `poml.api`:
`_trace_enabled`, `_weave_enabled`, `_agentops_enabled`, `_mlflow_enabled`,
`_trace_dir`.  (The trace log `_trace_log` is threaded separately.) -/
structure TraceState where
  traceEnabled : Bool
  weaveEnabled : Bool
  agentopsEnabled : Bool
  mlflowEnabled : Bool
  traceDir : Option String
deriving Repr, DecidableEq

/-- The `enabled` positional argument of `set_trace`:
`bool`, a single backend name, or a list of backend names. -/
inductive EnabledArg where
  | bool (b : Bool)
  | single (s : String)
  | multi (l : List String)
deriving Repr, DecidableEq

/-- Lines 63-69 of `api.py`: `True ↦ ["local"]`, `False ↦ []`,
a string `s ↦ [s]`, a list is kept as is. -/
def normalizeEnabled : EnabledArg → List String
  | .bool true => ["local"]
  | .bool false => []
  | .single s => [s]
  | .multi l => l

/-- Result of a `set_trace` call: the new module state, the returned
`Optional[Path]`, and the directories created (in `mkdir` call order,
each with `parents=True, exist_ok=True`). -/
structure SetTraceOut where
  st : TraceState
  ret : Option String
  mkdirs : List String
deriving Repr, DecidableEq

/-- Shallow embedding of `set_trace` (api.py lines 34-108).
`env` is `os.environ.get("POML_TRACE")` (`none` when unset); the Python
truthiness test `elif env_dir:` also rejects the empty string.
`c` supplies `datetime.now()`. -/
def set_trace (c : Clock) (env : Option String) (enabledArg : EnabledArg)
    (trace_dir : Option String) (_prev : TraceState) : SetTraceOut :=
  let enabled := normalizeEnabled enabledArg
  -- `if enabled or "local" in enabled:`
  let localOn : Bool := !enabled.isEmpty || enabled.contains "local"
  let weaveOn := enabled.contains "weave"
  let agentopsOn := enabled.contains "agentops"
  let mlflowOn := enabled.contains "mlflow"
  if localOn then
    match trace_dir with
    | some base =>
        -- base.mkdir(...); ts := now().strftime(...); run_dir := base / ts; run_dir.mkdir(...)
        let ts := strftimeTs c
        let run_dir := base ++ "/" ++ ts
        { st := ⟨true, weaveOn, agentopsOn, mlflowOn, some run_dir⟩,
          ret := some run_dir, mkdirs := [base, run_dir] }
    | none =>
        match env with
        | some e =>
            if e = "" then
              { st := ⟨true, weaveOn, agentopsOn, mlflowOn, none⟩, ret := none, mkdirs := [] }
            else
              { st := ⟨true, weaveOn, agentopsOn, mlflowOn, some e⟩, ret := some e, mkdirs := [e] }
        | none =>
            { st := ⟨true, weaveOn, agentopsOn, mlflowOn, none⟩, ret := none, mkdirs := [] }
  else
    { st := ⟨false, weaveOn, agentopsOn, mlflowOn, none⟩, ret := none, mkdirs := [] }

/-- Accumulator loop for `pyDigitsCore`. -/
def pyDigitsGo (acc : Nat) : List Char → Option Nat
  | [] => some acc
  | c :: cs =>
      if c.isDigit then pyDigitsGo (acc * 10 + (c.toNat - 48)) cs
      else if c = '_' then
        match cs with
        | d :: ds => if d.isDigit then pyDigitsGo (acc * 10 + (d.toNat - 48)) ds else none
        | [] => none
      else none

/-- Core of Python `int(s)` on a run of ASCII digits possibly containing
single underscores between digits (`"1_0"` is legal, `"_1"`, `"1_"`,
`"1__0"` are not). -/
def pyDigitsCore : List Char → Option Nat
  | [] => none
  | c :: cs => if c.isDigit then pyDigitsGo (c.toNat - 48) cs else none

/-- The whitespace characters Python `int(s)` strips. -/
def isPySpace (c : Char) : Bool :=
  c == ' ' || c == '\t' || c == '\n' || c == '\r' || c == '\x0c' || c == '\x0b'

/-- Strip `isPySpace` characters from both ends. -/
def pyStrip (cs : List Char) : List Char :=
  ((cs.dropWhile isPySpace).reverse.dropWhile isPySpace).reverse

/-- Python `int(s)` for decimal strings: strip surrounding whitespace, an
optional sign, then digits (with underscore separators).  Returns `none`
where Python raises `ValueError`. -/
def pyInt (s : String) : Option Int :=
  match pyStrip s.data with
  | '+' :: rest => (pyDigitsCore rest).map Int.ofNat
  | '-' :: rest => (pyDigitsCore rest).map (fun n => -(n : Int))
  | t => (pyDigitsCore t).map Int.ofNat

/-- Group 1 of `re.match(r"^(\d{4}.*?)(?:\.source)?\.poml$", name)`.
With the lazy `.*?` the shortest group wins, so when the name ends in
`".source.poml"` (and the group still has the four leading digits) the
`.source` run is matched by the optional group and stripped from the stem;
otherwise only the final `".poml"` is stripped.  (Filenames are assumed
newline-free, as `.` does not match a newline.) -/
def matchPomlName (name : String) : Option String :=
  let cs := name.data
  let n := cs.length
  if (cs.take 4).all Char.isDigit ∧ ".poml".data.isSuffixOf cs ∧ 9 ≤ n then
    if ".source.poml".data.isSuffixOf cs ∧ 4 ≤ n - 12 then
      some (String.mk (cs.take (n - 12)))
    else
      some (String.mk (cs.take (n - 5)))
  else none

/-- The characters of `cs` before its first `'.'` — `cs.split(".")[0]`. -/
def dotHead : List Char → List Char
  | [] => []
  | c :: cs => if c = '.' then [] else c :: dotHead cs

/-- Per-entry step of `_latest_trace_prefix` (api.py lines 138-148): apply the
pattern, skip stems still ending in `".source"`, and parse
`int(prefix_part.split(".")[0])`, skipping entries where Python would raise
`ValueError`. -/
def traceEntryIdx (name : String) : Option (Int × String) :=
  match matchPomlName name with
  | none => none
  | some stem =>
      if ".source".data.isSuffixOf stem.data then none
      else
        match pyInt (String.mk (dotHead stem.data)) with
        | none => none
        | some idx => some (idx, stem)

/-- The loop of `_latest_trace_prefix` (api.py lines 134-153) over the
directory listing in iteration order: keep the entry whose index is
strictly greater than every index seen before it (`idx > latest_idx`,
starting from `-1`). -/
def latestStemFold (files : List String) : Option String :=
  (files.foldl
    (fun acc f =>
      match traceEntryIdx f with
      | none => acc
      | some p => if p.1 > acc.1 then (p.1, some p.2) else acc)
    ((-1 : Int), (none : Option String))).2

/-- Shallow embedding of `_latest_trace_prefix` (api.py lines 129-153).
`files` is the listing (`_trace_dir.iterdir()` order) of the run directory. -/
def latestTraceStem (st : TraceState) (files : List String) : Option String :=
  match st.traceDir with
  | none => none
  | some dir =>
      if st.traceEnabled then
        (latestStemFold files).map (fun stem => dir ++ "/" ++ stem)
      else none

/-- A Python runtime value as it can appear in this layer: JSON-decoded data
(`str`/`num`/`bool`/`null`/`list`/`obj`) plus an actual `ContentMultiMedia`
instance (`mm`). -/
inductive PyValue where
  | str (s : String)
  | num (n : Int)
  | bool (b : Bool)
  | null
  | list (xs : List PyValue)
  | obj (fields : List (String × PyValue))
  | mm (ty b64 : String) (alt : Option String)

/-- The `Speaker = Literal["human", "assistant", "system"]` type. -/
inductive Speaker where
  | human
  | assistant
  | system
deriving Repr, DecidableEq

/-- The string a `Speaker` literal denotes. -/
def speakerStr : Speaker → String
  | .human => "human"
  | .assistant => "assistant"
  | .system => "system"

/-- One element of a validated content sequence: plain text or a
`ContentMultiMedia` (`type`, `base64`, optional `alt`). -/
inductive RCPart where
  | text (s : String)
  | media (ty b64 : String) (alt : Option String)
deriving Repr, DecidableEq

/-- A validated `RichContent = Union[str, List[Union[str, ContentMultiMedia]]]`. -/
inductive RichContentV where
  | text (s : String)
  | parts (ps : List RCPart)
deriving Repr, DecidableEq

/-- A validated `PomlMessage` (pydantic model). -/
structure PomlMessageV where
  speaker : Speaker
  content : RichContentV
deriving Repr, DecidableEq

/-- Sequential validation of a list, failing at the first failure — the
shape of a Python list comprehension over a fallible constructor. -/
def validateAll {α β : Type} (f : α → Option β) : List α → Option (List β)
  | [] => some []
  | a :: l =>
      match f a with
      | none => none
      | some b => (validateAll f l).map (fun bs => b :: bs)

/-- Sequential conversion of a list, raising at the first failure — the
shape of the converters' `for` loops. -/
def convAll {ε α β : Type} (f : α → Except ε β) : List α → Except ε (List β)
  | [] => .ok []
  | a :: l =>
      match f a with
      | .error e => .error e
      | .ok b => (convAll f l).map (fun bs => b :: bs)

/-- Dictionary lookup on a `PyValue.obj` field list. -/
def lookupField (fields : List (String × PyValue)) (k : String) : Option PyValue :=
  (fields.find? (fun p => p.1 = k)).map (fun p => p.2)

/-- Pydantic validation of the `speaker` field: exactly one of the three
literal strings. -/
def validateSpeaker : PyValue → Option Speaker
  | .str "human" => some Speaker.human
  | .str "assistant" => some Speaker.assistant
  | .str "system" => some Speaker.system
  | _ => none

/-- Pydantic validation of one content-sequence element against
`Union[str, ContentMultiMedia]`: a string stays text; a dict must carry
string fields `type` and `base64` and an optional string-or-null `alt`;
an actual `ContentMultiMedia` instance passes through; anything else fails. -/
def validatePart : PyValue → Option RCPart
  | .str s => some (RCPart.text s)
  | .obj fields =>
      match lookupField fields "type", lookupField fields "base64" with
      | some (.str ty), some (.str b64) =>
          match lookupField fields "alt" with
          | none => some (RCPart.media ty b64 none)
          | some .null => some (RCPart.media ty b64 none)
          | some (.str a) => some (RCPart.media ty b64 (some a))
          | some _ => none
      | _, _ => none
  | .mm ty b64 alt => some (RCPart.media ty b64 alt)
  | _ => none

/-- Pydantic validation of the `content` field against `RichContent`. -/
def validateContent : PyValue → Option RichContentV
  | .str s => some (RichContentV.text s)
  | .list xs => (validateAll validatePart xs).map RichContentV.parts
  | _ => none

/-- `PomlMessage(**item)`: `item` must be a mapping whose `speaker` and
`content` fields validate; any other shape raises
(`TypeError`/`ValidationError`), modelled as `none`. -/
def validateMessage : PyValue → Option PomlMessageV
  | .obj fields => do
      let sp ← lookupField fields "speaker"
      let spv ← validateSpeaker sp
      let ct ← lookupField fields "content"
      let ctv ← validateContent ct
      pure ⟨spv, ctv⟩
  | _ => none

/-- api.py lines 375-379: with `chat=True` every element of the parsed list
becomes a `PomlMessage`; with `chat=False` the whole parsed value is wrapped
as a single `human` message (its content still pydantic-validated).
Iterating a non-list parsed value cannot yield valid mappings, so it fails. -/
def toPydanticList (chat : Bool) (v : PyValue) : Option (List PomlMessageV) :=
  if chat then
    match v with
    | .list xs => validateAll validateMessage xs
    | _ => none
  else
    (validateContent v).map (fun c => [⟨Speaker.human, c⟩])

/-- A content-sequence element as the converters see it at runtime:
a `str`, a `ContentMultiMedia` instance, or anything else. -/
inductive DynPart where
  | str (s : String)
  | media (ty b64 : String) (alt : Option String)
  | other
deriving Repr, DecidableEq

/-- A message content value as the converters see it at runtime. -/
inductive DynContent where
  | str (s : String)
  | list (ps : List DynPart)
  | other
deriving Repr, DecidableEq

/-- A message as the converters see it at runtime: the speaker is just a
string attribute, not statically constrained. -/
structure DynMessage where
  speaker : String
  content : DynContent
deriving Repr, DecidableEq

/-- View of a validated part for the converters. -/
def RCPart.toDyn : RCPart → DynPart
  | .text s => DynPart.str s
  | .media ty b64 alt => DynPart.media ty b64 alt

/-- View of validated content for the converters. -/
def RichContentV.toDyn : RichContentV → DynContent
  | .text s => DynContent.str s
  | .parts ps => DynContent.list (ps.map RCPart.toDyn)

/-- View of a validated message for the converters. -/
def PomlMessageV.toDyn (m : PomlMessageV) : DynMessage :=
  ⟨speakerStr m.speaker, m.content.toDyn⟩

/-- The `ValueError`s the two converters can raise. -/
inductive ConvErr where
  | unknownSpeaker (s : String)
  | unexpectedPart
  | unexpectedContentType
deriving Repr, DecidableEq

/-- One part of an OpenAI chat content array. -/
inductive OAPart where
  | text (s : String)
  | imageUrl (url : String)
deriving Repr, DecidableEq

/-- OpenAI chat message content: a bare string or a part array. -/
inductive OAContent where
  | text (s : String)
  | parts (ps : List OAPart)
deriving Repr, DecidableEq

/-- An OpenAI chat message `{"role": ..., "content": ...}`. -/
structure OAMsg where
  role : String
  content : OAContent
deriving Repr, DecidableEq

/-- The `speaker_to_role` dict lookup of
`_poml_response_to_openai_chat` (api.py lines 207-211). -/
def speakerToRole (s : String) : Option String :=
  if s = "human" then some "user"
  else if s = "assistant" then some "assistant"
  else if s = "system" then some "system"
  else none

/-- Conversion of one content part to OpenAI shape (api.py lines 222-231). -/
def convOAPart : DynPart → Except ConvErr OAPart
  | .str s => .ok (OAPart.text s)
  | .media ty b64 _ => .ok (OAPart.imageUrl ("data:" ++ ty ++ ";base64," ++ b64))
  | .other => .error ConvErr.unexpectedPart

/-- Conversion of one message to OpenAI shape (api.py lines 213-234):
speaker is checked first, then content is dispatched on its runtime shape. -/
def convOAMsg (msg : DynMessage) : Except ConvErr OAMsg :=
  match speakerToRole msg.speaker with
  | none => .error (ConvErr.unknownSpeaker msg.speaker)
  | some role =>
      match msg.content with
      | .str s => .ok ⟨role, OAContent.text s⟩
      | .list ps => (convAll convOAPart ps).map (fun cs => ⟨role, OAContent.parts cs⟩)
      | .other => .error ConvErr.unexpectedContentType

/-- Shallow embedding of `_poml_response_to_openai_chat`
(api.py lines 204-236). -/
def pomlResponseToOpenaiChat (msgs : List DynMessage) : Except ConvErr (List OAMsg) :=
  convAll convOAMsg msgs

/-- One part of a LangChain content array. -/
inductive LCPart where
  | text (s : String)
  | image (data mime : String)
deriving Repr, DecidableEq

/-- LangChain message content. -/
inductive LCContent where
  | str (s : String)
  | parts (ps : List LCPart)
deriving Repr, DecidableEq

/-- A LangChain message `{"type": speaker, "data": {"content": ...}}`;
note the speaker string is kept verbatim, with no role mapping or check. -/
structure LCMsg where
  ty : String
  content : LCContent
deriving Repr, DecidableEq

/-- Conversion of one content part to LangChain shape (api.py lines 250-261). -/
def convLCPart : DynPart → Except ConvErr LCPart
  | .str s => .ok (LCPart.text s)
  | .media ty b64 _ => .ok (LCPart.image b64 ty)
  | .other => .error ConvErr.unexpectedPart

/-- Shallow embedding of `_poml_response_to_langchain`
(api.py lines 239-268). -/
def pomlResponseToLangchain (msgs : List DynMessage) : Except ConvErr (List LCMsg) :=
  convAll (fun msg =>
    match msg.content with
    | .str s => .ok ⟨msg.speaker, LCContent.str s⟩
    | .list ps => (convAll convLCPart ps).map (fun cs => ⟨msg.speaker, LCContent.parts cs⟩)
    | .other => .error ConvErr.unexpectedContentType) msgs

/-- The `format` argument of `poml`:
`OutputFormat = Literal["raw", "dict", "openai_chat", "langchain", "pydantic"]`. -/
inductive OutputFormat where
  | raw
  | dict
  | openaiChat
  | langchain
  | pydantic
deriving Repr, DecidableEq

/-- The `markup` argument: a `Path` or a `str`. -/
inductive MarkupArg where
  | path (p : String)
  | str (s : String)
deriving Repr, DecidableEq

/-- A `context`/`stylesheet` argument when present: a mapping, a plain
string, or a `Path`. -/
inductive CtxArg where
  | dict (v : PyValue)
  | strA (s : String)
  | pathA (p : String)

/-- The exceptions a `poml` call can raise. -/
inductive Err where
  | fileNotFound (p : String)
  | renderFailed (code : Int)
  | jsonError
  | validationError
  | conv (e : ConvErr)
  | unknownFormat
  | backendPrereq (b : String)
  | backendRaised (b : String)
deriving Repr, DecidableEq

/-- What `poml` returns on success, per requested format. -/
inductive RetVal where
  | raw (s : String)
  | dict (v : PyValue)
  | pydantic (ms : List PomlMessageV)
  | openaiChat (ms : List OAMsg)
  | langchain (ms : List LCMsg)

/-- The value stored in `trace_record["result"]` (api.py line 443): the raw
output text, or the JSON-decoded value. -/
inductive ResVal where
  | raw (s : String)
  | json (v : PyValue)

/-- One in-memory trace record (`trace_record` in `poml`); `none` fields are
keys never written. -/
structure TraceRecord where
  markup : Option String := none
  markupPath : Option String := none
  context : Option String := none
  contextPath : Option String := none
  stylesheet : Option String := none
  stylesheetPath : Option String := none
  result : Option ResVal := none

/-- Observable ordering events inside a `poml` call. -/
inductive Ev where
  | backendCall (b : String)
  | attachResult
deriving Repr, DecidableEq

/-- The ambient effects of one `poml` call: filesystem queries and reads,
`json` codec, the renderer subprocess exit code, the fresh names
`tempfile` hands out, the run-directory listing, and whether each backend
`log_poml_call` raises. -/
structure World where
  fsExists : String → Bool
  readFile : String → String
  jsonParse : String → Option PyValue
  dumps : PyValue → String
  returncode : Int
  tmpInName : String
  tmpCtxName : String
  tmpStyName : String
  tmpOutName : String
  dirFiles : List String
  weaveRaises : Bool
  agentopsRaises : Bool
  mlflowRaises : Bool

/-- What the `try` body of `poml` produces, before the `finally` block and
the closing of the `with`-scoped output temp file are applied. -/
structure TryOut where
  res : Except Err RetVal
  tempIn : Option String
  tempCtx : Option String
  tempSty : Option String
  outEntered : Bool
  created : List String
  outputRead : Bool
  rendererRan : Bool
  record : Option TraceRecord
  events : List Ev

/-- The observable outcome of a whole `poml` call. -/
structure Outcome where
  result : Except Err RetVal
  created : List String
  deleted : List String
  outputRead : Bool
  rendererRan : Bool
  appended : Option TraceRecord
  events : List Ev

/-- The recorded text for a context/stylesheet argument
(api.py lines 293-306): dicts are serialized; truthy path-like arguments
that exist are read; everything else leaves the key unset. -/
def ctxRecText (w : World) (c : Option CtxArg) : Option String :=
  match c with
  | some (.dict v) => some (w.dumps v)
  | some (.strA s) =>
      if s = "" then none
      else if w.fsExists s then some (w.readFile s) else none
  | some (.pathA p) => if w.fsExists p then some (w.readFile p) else none
  | none => none

/-- The recorded path for a context/stylesheet argument: set only for a
truthy path-like argument that exists on disk. -/
def ctxRecPath (w : World) (c : Option CtxArg) : Option String :=
  match c with
  | some (.dict _) => none
  | some (.strA s) =>
      if s = "" then none
      else if w.fsExists s then some s else none
  | some (.pathA p) => if w.fsExists p then some p else none
  | none => none

/-- The recorded markup text (api.py lines 285-291): a path's contents when
it exists, else unset for a `Path` argument; a string argument is read when
it names an existing path and kept literally otherwise. -/
def markupRecText (w : World) (m : MarkupArg) : Option String :=
  match m with
  | .path p => if w.fsExists p then some (w.readFile p) else none
  | .str s => if w.fsExists s then some (w.readFile s) else some s

/-- The recorded markup path: always set for a `Path` argument, and for a
string argument only when it names an existing path. -/
def markupRecPath (w : World) (m : MarkupArg) : Option String :=
  match m with
  | .path p => some p
  | .str s => if w.fsExists s then some s else none

/-- Building the trace record (api.py lines 284-306); its `result` key is
not written at build time. -/
def buildTraceRecord (w : World) (markup : MarkupArg)
    (context stylesheet : Option CtxArg) : TraceRecord :=
  { markup := markupRecText w markup, markupPath := markupRecPath w markup,
    context := ctxRecText w context, contextPath := ctxRecPath w context,
    stylesheet := ctxRecText w stylesheet,
    stylesheetPath := ctxRecPath w stylesheet, result := none }

/-- Argument handling for `context`/`stylesheet` inside the `with` block
(api.py lines 330-346): a dict gets a fresh serialized temp file; a truthy
path-like argument must exist on disk or the call fails; a falsy one is
silently skipped. Returns the temp file created, if any. -/
def resolveAux (w : World) (c : Option CtxArg) (tmpName : String) :
    Except String (Option String) :=
  match c with
  | some (.dict _) => .ok (some tmpName)
  | some (.strA s) =>
      if s = "" then .ok none
      else if w.fsExists s then .ok none else .error s
  | some (.pathA p) => if w.fsExists p then .ok none else .error p
  | none => .ok none

/-- The last `/`-separated path component. -/
def lastComponent (cs : List Char) : List Char :=
  (cs.reverse.takeWhile (fun c => !(c == '/'))).reverse

/-- `_trace_dir.name` guarded as in `_current_trace_version`
(api.py lines 121-126); `lastComponent` is `Path.name`. -/
def currentTraceVersion (st : TraceState) : Option String :=
  match st.traceDir with
  | none => none
  | some d => if st.traceEnabled then some (String.mk (lastComponent d.data)) else none

/-- `_read_latest_traced_file` (api.py lines 156-165). -/
def readLatestTraced (w : World) (st : TraceState) (suffix : String) : Option String :=
  match latestTraceStem st w.dirFiles with
  | none => none
  | some stem =>
      let path := stem ++ suffix
      if w.fsExists path then some (w.readFile path) else none

/-- `json.loads(content) if content else None` succeeds: a missing or falsy
(empty) content is passed as `None`; otherwise the parse must not raise. -/
def parsesJson (w : World) (c : Option String) : Bool :=
  match c with
  | some s => if s = "" then true else (w.jsonParse s).isSome
  | none => true

/-- One backend block of `poml` (api.py lines 390-440): requires a
discoverable trace stem and version, re-reads the traced markup / context /
stylesheet, `json.loads` the truthy ones, then calls the backend's
`log_poml_call`, which may itself raise. -/
def backendBlock (w : World) (st : TraceState) (name : String) (raises : Bool) :
    Except Err Ev :=
  if latestTraceStem st w.dirFiles = none ∨ currentTraceVersion st = none then
    .error (Err.backendPrereq name)
  else
    if parsesJson w (readLatestTraced w st ".context.json") then
      if parsesJson w (readLatestTraced w st ".stylesheet.json") then
        if raises then .error (Err.backendRaised name) else .ok (Ev.backendCall name)
      else .error Err.jsonError
    else .error Err.jsonError

/-- One backend's guarded block in sequence: skipped when a previous block
raised or the backend is disabled; otherwise runs `backendBlock`, recording
either its event or its error. -/
def backendStep (w : World) (st : TraceState) (enabled : Bool) (name : String)
    (raises : Bool) (acc : List Ev × Option Err) : List Ev × Option Err :=
  match acc.2 with
  | some _ => acc
  | none =>
      if enabled then
        match backendBlock w st name raises with
        | .error e => (acc.1, some e)
        | .ok ev => (acc.1 ++ [ev], none)
      else acc

/-- The backend dispatch tail of `poml`: weave, then agentops, then mlflow,
each only when enabled, stopping at the first raise.  Returns the backend
calls made and the first error, if any. -/
def backendsRun (w : World) (st : TraceState) : List Ev × Option Err :=
  backendStep w st st.mlflowEnabled "mlflow" w.mlflowRaises
    (backendStep w st st.agentopsEnabled "agentops" w.agentopsRaises
      (backendStep w st st.weaveEnabled "weave" w.weaveRaises ([], none)))

/-- Tail of a successful raw/dict render (api.py lines 390-444): run the
enabled backend blocks in order, and only afterwards attach the result to the
trace record (line 442-443) and return it (line 444).  A backend raise skips
the attach. -/
def finishBackends (w : World) (st : TraceState) (ret : RetVal) (rv : ResVal)
    (record : Option TraceRecord) (tempIn tempCtx tempSty : Option String)
    (created : List String) : TryOut :=
  let (evs, err) := backendsRun w st
  match err with
  | some e =>
      { res := .error e, tempIn, tempCtx, tempSty, outEntered := true, created,
        outputRead := true, rendererRan := true, record, events := evs }
  | none =>
      { res := .ok ret, tempIn, tempCtx, tempSty, outEntered := true, created,
        outputRead := true, rendererRan := true,
        record := record.map (fun r => { r with result := some rv }),
        events := evs ++ (if record.isSome then [Ev.attachResult] else []) }

/-- The early-returning typed branches (api.py lines 375-388): pydantic
validation already done, dispatch on the format, converting where needed;
the final two arms are the dead `else` of line 388. -/
def typedResult (format : OutputFormat) (msgs : List PomlMessageV) :
    Except Err RetVal :=
  match format with
  | .pydantic => .ok (RetVal.pydantic msgs)
  | .openaiChat =>
      match pomlResponseToOpenaiChat (msgs.map PomlMessageV.toDyn) with
      | .error e => .error (Err.conv e)
      | .ok oms => .ok (RetVal.openaiChat oms)
  | .langchain =>
      match pomlResponseToLangchain (msgs.map PomlMessageV.toDyn) with
      | .error e => .error (Err.conv e)
      | .ok lms => .ok (RetVal.langchain lms)
  | .raw => .error Err.unknownFormat
  | .dict => .error Err.unknownFormat

/-- api.py lines 358-388: run the renderer, fail on a non-zero exit before
touching the output file, otherwise read the output and dispatch on the
requested format.  The typed formats return directly (lines 381-386),
skipping both the backend blocks and the result attach. -/
def runAndFormat (w : World) (st : TraceState) (chat : Bool) (outPath : String)
    (format : OutputFormat) (record : Option TraceRecord)
    (tempIn tempCtx tempSty : Option String) (created : List String) : TryOut :=
  if w.returncode ≠ 0 then
    { res := .error (Err.renderFailed w.returncode), tempIn, tempCtx, tempSty,
      outEntered := true, created, outputRead := false, rendererRan := true,
      record, events := [] }
  else
    if format = OutputFormat.raw then
      finishBackends w st (RetVal.raw (w.readFile outPath))
        (ResVal.raw (w.readFile outPath)) record tempIn tempCtx tempSty created
    else
      match w.jsonParse (w.readFile outPath) with
      | none =>
          { res := .error Err.jsonError, tempIn, tempCtx, tempSty,
            outEntered := true, created, outputRead := true, rendererRan := true,
            record, events := [] }
      | some v =>
          if format = OutputFormat.dict then
            finishBackends w st (RetVal.dict v) (ResVal.json v) record
              tempIn tempCtx tempSty created
          else
            match toPydanticList chat v with
            | none =>
                { res := .error Err.validationError, tempIn, tempCtx, tempSty,
                  outEntered := true, created, outputRead := true,
                  rendererRan := true, record, events := [] }
            | some msgs =>
                { res := typedResult format msgs, tempIn, tempCtx, tempSty,
                  outEntered := true, created, outputRead := true,
                  rendererRan := true, record, events := [] }

/-- The `with tempfile.NamedTemporaryFile` block (api.py lines 321-444):
resolve the output target, build the context/stylesheet arguments (possibly
creating serialized temp files, possibly failing on missing paths), then run
and post-process. -/
def pomlWith (w : World) (st : TraceState) (_markupPath : String)
    (tempIn : Option String) (created0 : List String)
    (context stylesheet : Option CtxArg) (chat : Bool)
    (output_file : Option String) (format : OutputFormat)
    (record : Option TraceRecord) : TryOut :=
  let created1 := created0 ++ [w.tmpOutName]
  let outPath := output_file.getD w.tmpOutName
  match resolveAux w context w.tmpCtxName with
  | .error p =>
      { res := .error (Err.fileNotFound p), tempIn, tempCtx := none, tempSty := none,
        outEntered := true, created := created1, outputRead := false,
        rendererRan := false, record, events := [] }
  | .ok tempCtx =>
      let created2 := created1 ++ tempCtx.toList
      match resolveAux w stylesheet w.tmpStyName with
      | .error p =>
          { res := .error (Err.fileNotFound p), tempIn, tempCtx, tempSty := none,
            outEntered := true, created := created2, outputRead := false,
            rendererRan := false, record, events := [] }
      | .ok tempSty =>
          let created3 := created2 ++ tempSty.toList
          runAndFormat w st chat outPath format record tempIn tempCtx tempSty created3

/-- The `try` body of `poml` (api.py lines 282-444): build the trace record
when tracing is on, then resolve the markup argument — a missing `Path`
fails; an existing string path is used in place; any other string becomes a
fresh temp input file. -/
def pomlTry (w : World) (st : TraceState) (markup : MarkupArg)
    (context stylesheet : Option CtxArg) (chat : Bool)
    (output_file : Option String) (format : OutputFormat) : TryOut :=
  let record0 : Option TraceRecord :=
    if st.traceEnabled then some (buildTraceRecord w markup context stylesheet)
    else none
  match markup with
  | .path p =>
      if w.fsExists p then
        pomlWith w st p none [] context stylesheet chat output_file format record0
      else
        { res := .error (Err.fileNotFound p), tempIn := none, tempCtx := none,
          tempSty := none, outEntered := false, created := [], outputRead := false,
          rendererRan := false, record := record0, events := [] }
  | .str s =>
      if w.fsExists s then
        pomlWith w st s none [] context stylesheet chat output_file format record0
      else
        pomlWith w st w.tmpInName (some w.tmpInName) [w.tmpInName]
          context stylesheet chat output_file format record0

/-- The files deleted by the cleanup of one `poml` call: the `with`-scoped
output temp file, then the `finally` block's closes of the input, context
and stylesheet temp files, each only when it was created. -/
def deletedOf (w : World) (t : TryOut) : List String :=
  (if t.outEntered then [w.tmpOutName] else []) ++
    t.tempIn.toList ++ t.tempCtx.toList ++ t.tempSty.toList

/-- Shallow embedding of `poml` (api.py lines 271-453): the `try` body, then
the cleanup (`deletedOf`); the trace record, when built, is appended whatever
the exit path. -/
def poml (w : World) (st : TraceState) (markup : MarkupArg)
    (context stylesheet : Option CtxArg) (chat : Bool)
    (output_file : Option String) (format : OutputFormat) : Outcome :=
  let t := pomlTry w st markup context stylesheet chat output_file format
  { result := t.res,
    created := t.created,
    deleted := deletedOf w t,
    outputRead := t.outputRead,
    rendererRan := t.rendererRan,
    appended := t.record,
    events := t.events }

/-- The accumulator step of the `_latest_trace_prefix` loop, on parsed
entries: keep a new entry only when its index strictly exceeds the best so
far. -/
def pickStep (acc : Int × Option String) (p : Int × String) : Int × Option String :=
  if p.1 > acc.1 then (p.1, some p.2) else acc

/-- Specification-side selection describing the loop's observable behavior:
the winner is the first listed entry whose index is nonnegative and maximal
among all parsed entries. -/
def firstMaxEntry (l : List (Int × String)) : Option String :=
  (l.find? (fun p => decide (0 ≤ p.1) && l.all (fun q => decide (q.1 ≤ p.1)))).map
    (fun p => p.2)

/-! ### Concrete fixtures used by counterexamples and witnesses -/

/-- A fixed clock value. -/
def clk0 : Clock := ⟨2024, 1, 2, 3, 4, 5, 6⟩

/-- The all-disabled tracing state. -/
def st0 : TraceState := ⟨false, false, false, false, none⟩

/-- Local tracing only, with run directory `/tr/run`. -/
def stLoc : TraceState := ⟨true, false, false, false, some "/tr/run"⟩

/-- Local plus weave tracing, with run directory `/tr/run`. -/
def stWv : TraceState := ⟨true, true, false, false, some "/tr/run"⟩

/-- A benign world: no path exists, the renderer succeeds and writes `"[]"`,
which decodes to the empty JSON array; one trace record file is on disk. -/
def w0 : World :=
  { fsExists := fun _ => false, readFile := fun _ => "[]",
    jsonParse := fun s => if s = "[]" then some (PyValue.list []) else none,
    dumps := fun _ => "null", returncode := 0, tmpInName := "/t/in",
    tmpCtxName := "/t/ctx", tmpStyName := "/t/sty", tmpOutName := "/t/out",
    dirFiles := ["0001.a.poml"], weaveRaises := false, agentopsRaises := false,
    mlflowRaises := false }

/-- `w0` with the weave backend raising from `log_poml_call`. -/
def w1 : World := { w0 with weaveRaises := true }

/-- `w0` with the renderer exiting with status 2. -/
def w2 : World := { w0 with returncode := 2 }

end Poml

namespace Poml

/-! ### Helper lemmas -/

theorem decDigitsAux_length_le (fuel : Nat) :
    ∀ n k, n < 10 ^ k → 1 ≤ k → (decDigitsAux fuel n).length ≤ k := by
  induction fuel with
  | zero => intro n k _ _; simp [decDigitsAux]
  | succ fuel ih =>
      intro n k hn hk
      unfold decDigitsAux
      split
      · simpa using hk
      · rename_i h10
        have hk2 : 2 ≤ k := by
          by_contra hlt
          have hk1 : k = 1 := by omega
          subst hk1
          simp only [pow_one] at hn
          omega
        have hpow : 10 ^ (k - 1) * 10 = 10 ^ k := by
          rw [← pow_succ]
          congr 1
          omega
        have hdiv : n / 10 < 10 ^ (k - 1) := by
          rw [Nat.div_lt_iff_lt_mul (by omega)]
          omega
        have := ih (n / 10) (k - 1) hdiv (by omega)
        simp only [List.length_append, List.length_cons, List.length_nil]
        omega

theorem decDigits_length_le (n k : Nat) (hn : n < 10 ^ k) (hk : 1 ≤ k) :
    (decDigits n).length ≤ k :=
  decDigitsAux_length_le (n + 1) n k hn hk

theorem charOfNat_digit : ∀ m, m < 10 → (Char.ofNat (48 + m)).isDigit = true := by
  decide

theorem decDigitsAux_digits (fuel : Nat) :
    ∀ n c, c ∈ decDigitsAux fuel n → c.isDigit = true := by
  induction fuel with
  | zero => simp [decDigitsAux]
  | succ fuel ih =>
      intro n c hc
      unfold decDigitsAux at hc
      split at hc
      · rename_i h10
        simp only [List.mem_singleton] at hc
        subst hc
        exact charOfNat_digit _ (by omega)
      · rcases List.mem_append.mp hc with hc | hc
        · exact ih _ _ hc
        · simp only [List.mem_singleton] at hc
          subst hc
          exact charOfNat_digit _ (Nat.mod_lt _ (by omega))

theorem padDec_length (w n : Nat) (h : (decDigits n).length ≤ w) :
    (padDec w n).length = w := by
  simp only [padDec, List.length_append, List.length_replicate]
  omega

theorem padDec_digits (w n : Nat) (c : Char) (hc : c ∈ padDec w n) :
    c.isDigit = true := by
  rcases List.mem_append.mp hc with hrep | hdd
  · rw [List.eq_of_mem_replicate hrep]
    decide
  · exact decDigitsAux_digits (n + 1) n c hdd

theorem strftimeTs_twenty_digits (c : Clock)
    (hy : c.year ≤ 9999) (hm : c.month ≤ 99) (hd : c.day ≤ 99)
    (hh : c.hour ≤ 99) (hmin : c.minute ≤ 99) (hs : c.second ≤ 99)
    (hus : c.micro ≤ 999999) :
    (strftimeTs c).length = 20 ∧ ∀ ch ∈ (strftimeTs c).data, ch.isDigit = true := by
  have l4 : (padDec 4 c.year).length = 4 :=
    padDec_length _ _ (decDigits_length_le _ 4 (by norm_num; omega) (by omega))
  have lmo : (padDec 2 c.month).length = 2 :=
    padDec_length _ _ (decDigits_length_le _ 2 (by norm_num; omega) (by omega))
  have ld : (padDec 2 c.day).length = 2 :=
    padDec_length _ _ (decDigits_length_le _ 2 (by norm_num; omega) (by omega))
  have lh : (padDec 2 c.hour).length = 2 :=
    padDec_length _ _ (decDigits_length_le _ 2 (by norm_num; omega) (by omega))
  have lmi : (padDec 2 c.minute).length = 2 :=
    padDec_length _ _ (decDigits_length_le _ 2 (by norm_num; omega) (by omega))
  have ls : (padDec 2 c.second).length = 2 :=
    padDec_length _ _ (decDigits_length_le _ 2 (by norm_num; omega) (by omega))
  have lus : (padDec 6 c.micro).length = 6 :=
    padDec_length _ _ (decDigits_length_le _ 6 (by norm_num; omega) (by omega))
  constructor
  · show (padDec 4 c.year ++ padDec 2 c.month ++ padDec 2 c.day ++ padDec 2 c.hour ++
      padDec 2 c.minute ++ padDec 2 c.second ++ padDec 6 c.micro).length = 20
    simp only [List.length_append]
    omega
  · intro ch hch
    simp only [strftimeTs, String.data] at hch
    simp only [List.mem_append] at hch
    rcases hch with ((((((h | h) | h) | h) | h) | h) | h) <;>
      exact padDec_digits _ _ _ h

theorem findAgree {α : Type} (f g : α → Bool) (l : List α)
    (h : ∀ x ∈ l, f x = g x) : l.find? f = l.find? g := by
  induction l with
  | nil => rfl
  | cons a l ih =>
      simp only [List.find?]
      rw [h a (by simp)]
      cases hg : g a
      · exact ih (fun x hx => h x (by simp [hx]))
      · rfl

theorem existsMaxEntry :
    ∀ l : List (Int × String), l ≠ [] → ∃ m, m ∈ l ∧ ∀ q ∈ l, q.1 ≤ m.1 := by
  intro l
  induction l with
  | nil => intro h; exact absurd rfl h
  | cons a l ih =>
      intro _
      rcases eq_or_ne l [] with rfl | hne
      · exact ⟨a, by simp, by simp⟩
      · obtain ⟨m, hm, hmax⟩ := ih hne
        by_cases hcmp : m.1 ≤ a.1
        · refine ⟨a, by simp, ?_⟩
          intro q hq
          rcases List.mem_cons.mp hq with rfl | hq
          · exact le_refl _
          · exact le_trans (hmax q hq) hcmp
        · refine ⟨m, by simp [hm], ?_⟩
          intro q hq
          rcases List.mem_cons.mp hq with rfl | hq
          · omega
          · exact hmax q hq

theorem foldl_pickStep_spec (l : List (Int × String)) :
    ∀ (i0 : Int) (s0 : Option String),
      l.foldl pickStep (i0, s0) =
        (match l.find? (fun p => decide (i0 < p.1) &&
            l.all (fun q => decide (q.1 ≤ p.1))) with
         | some p => (p.1, some p.2)
         | none => (i0, s0)) := by
  induction l with
  | nil => intro i0 s0; rfl
  | cons a l ih =>
      intro i0 s0
      by_cases ha : i0 < a.1
      · by_cases hmax : ∀ q ∈ l, q.1 ≤ a.1
        · have hstep : List.foldl pickStep (i0, s0) (a :: l)
              = List.foldl pickStep (a.1, some a.2) l := by
            simp [pickStep, ha]
          have hlfind : l.find? (fun p => decide (a.1 < p.1) &&
              l.all (fun q => decide (q.1 ≤ p.1))) = none := by
            apply List.find?_eq_none.mpr
            intro q hq
            have := hmax q hq
            simp only [Bool.and_eq_true, decide_eq_true_eq, not_and]
            intro hlt
            omega
          have hheadpred : (decide (i0 < a.1) &&
              (a :: l).all (fun q => decide (q.1 ≤ a.1))) = true := by
            simp only [Bool.and_eq_true, decide_eq_true_eq, List.all_cons,
              List.all_eq_true, decide_eq_true_eq]
            exact ⟨ha, le_refl _, fun q hq => by simpa using hmax q hq⟩
          rw [hstep, ih, hlfind]
          simp only [List.find?, hheadpred]
        · push_neg at hmax
          obtain ⟨q0, hq0l, hq0⟩ := hmax
          have hstep : List.foldl pickStep (i0, s0) (a :: l)
              = List.foldl pickStep (a.1, some a.2) l := by
            simp [pickStep, ha]
          have hallf : ((a :: l).all (fun q => decide (q.1 ≤ a.1))) = false := by
            apply Bool.eq_false_iff.mpr
            intro hall
            have := List.all_eq_true.mp hall q0 (by simp [hq0l])
            simp only [decide_eq_true_eq] at this
            omega
          have hheadpred : (decide (i0 < a.1) &&
              (a :: l).all (fun q => decide (q.1 ≤ a.1))) = false := by
            simp only [hallf, Bool.and_false]
          have hagree : ∀ p ∈ l,
              (fun p => decide (i0 < p.1) &&
                (a :: l).all (fun q => decide (q.1 ≤ p.1))) p =
              (fun p => decide (a.1 < p.1) &&
                l.all (fun q => decide (q.1 ≤ p.1))) p := by
            intro p hp
            simp only [List.all_cons]
            cases hall : l.all (fun q => decide (q.1 ≤ p.1)) with
            | false => simp
            | true =>
                have hq0p : q0.1 ≤ p.1 := by
                  have := List.all_eq_true.mp hall q0 hq0l
                  simpa using this
                have h1 : i0 < p.1 := by omega
                have h2 : a.1 < p.1 := by omega
                have h3 : a.1 ≤ p.1 := by omega
                simp [h1, h2, h3]
          rw [hstep, ih]
          simp only [List.find?, hheadpred]
          rw [findAgree _ _ l hagree]
          cases hfind : l.find? (fun p => decide (a.1 < p.1) &&
              l.all (fun q => decide (q.1 ≤ p.1))) with
          | some p => rfl
          | none =>
              exfalso
              obtain ⟨m, hm, hmmax⟩ := existsMaxEntry l
                (by intro hnil; rw [hnil] at hq0l; simp at hq0l)
              have hfalse := List.find?_eq_none.mp hfind m hm
              apply hfalse
              simp only [Bool.and_eq_true, decide_eq_true_eq, List.all_eq_true]
              refine ⟨by have := hmmax q0 hq0l; omega,
                fun q hq => by simpa using hmmax q hq⟩
      · have hstep : List.foldl pickStep (i0, s0) (a :: l)
            = List.foldl pickStep (i0, s0) l := by
          simp [pickStep, ha]
        have hheadpred : (decide (i0 < a.1) &&
            (a :: l).all (fun q => decide (q.1 ≤ a.1))) = false := by
          have : decide (i0 < a.1) = false := decide_eq_false ha
          simp only [this, Bool.false_and]
        have hagree : ∀ p ∈ l,
            (fun p => decide (i0 < p.1) &&
              (a :: l).all (fun q => decide (q.1 ≤ p.1))) p =
            (fun p => decide (i0 < p.1) &&
              l.all (fun q => decide (q.1 ≤ p.1))) p := by
          intro p hp
          simp only [List.all_cons]
          cases h1 : decide (i0 < p.1) with
          | false => simp
          | true =>
              have h1p : i0 < p.1 := of_decide_eq_true h1
              have h3 : a.1 ≤ p.1 := by omega
              simp [h3]
        rw [hstep, ih]
        simp only [List.find?, hheadpred]
        rw [findAgree _ _ l hagree]

theorem latestStemFold_filterMap (files : List String) :
    ∀ acc : Int × Option String,
      files.foldl
        (fun acc f =>
          match traceEntryIdx f with
          | none => acc
          | some p => if p.1 > acc.1 then (p.1, some p.2) else acc) acc
      = (files.filterMap traceEntryIdx).foldl pickStep acc := by
  induction files with
  | nil => intro acc; rfl
  | cons f fs ih =>
      intro acc
      simp only [List.foldl_cons, List.filterMap_cons]
      cases hf : traceEntryIdx f with
      | none => exact ih acc
      | some p =>
          simp only [List.foldl_cons, pickStep]
          exact ih _

theorem latestStemFold_eq_firstMax (files : List String) :
    latestStemFold files = firstMaxEntry (files.filterMap traceEntryIdx) := by
  unfold latestStemFold
  rw [latestStemFold_filterMap, foldl_pickStep_spec]
  unfold firstMaxEntry
  have hag : ∀ p ∈ files.filterMap traceEntryIdx,
      (fun p => decide ((-1 : Int) < p.1) &&
        (files.filterMap traceEntryIdx).all (fun q => decide (q.1 ≤ p.1))) p
      = (fun p => decide ((0 : Int) ≤ p.1) &&
        (files.filterMap traceEntryIdx).all (fun q => decide (q.1 ≤ p.1))) p := by
    intro p _
    have : decide ((-1 : Int) < p.1) = decide ((0 : Int) ≤ p.1) :=
      decide_eq_decide.mpr (by omega)
    simp only [this]
  rw [findAgree _ _ _ hag]
  cases hfind : (files.filterMap traceEntryIdx).find?
      (fun p => decide ((0 : Int) ≤ p.1) &&
        (files.filterMap traceEntryIdx).all (fun q => decide (q.1 ≤ p.1))) with
  | some p => rfl
  | none => rfl

theorem backendBlock_ok_shape (w : World) (st : TraceState) (name : String)
    (raises : Bool) (ev : Ev) (h : backendBlock w st name raises = .ok ev) :
    ev = Ev.backendCall name := by
  unfold backendBlock at h
  rcases ite_eq_iff.mp h with ⟨-, h1⟩ | ⟨-, h1⟩
  · exact absurd h1 (by simp)
  · rcases ite_eq_iff.mp h1 with ⟨-, h2⟩ | ⟨-, h2⟩
    · rcases ite_eq_iff.mp h2 with ⟨-, h3⟩ | ⟨-, h3⟩
      · rcases ite_eq_iff.mp h3 with ⟨-, h4⟩ | ⟨-, h4⟩
        · exact absurd h4 (by simp)
        · exact (Except.ok.inj h4).symm
      · exact absurd h3 (by simp)
    · exact absurd h2 (by simp)

theorem backendStep_events (w : World) (st : TraceState) (en : Bool)
    (name : String) (raises : Bool) (acc : List Ev × Option Err)
    (hacc : ∀ e ∈ acc.1, ∃ b, e = Ev.backendCall b) :
    ∀ e ∈ (backendStep w st en name raises acc).1, ∃ b, e = Ev.backendCall b := by
  intro e he
  unfold backendStep at he
  split at he
  · exact hacc e he
  · split at he
    · split at he
      · exact hacc e he
      · rename_i ev hok
        rcases List.mem_append.mp he with he | he
        · exact hacc e he
        · simp only [List.mem_singleton] at he
          subst he
          exact ⟨name, backendBlock_ok_shape _ _ _ _ _ hok⟩
    · exact hacc e he

theorem backendsRun_events (w : World) (st : TraceState) :
    ∀ e ∈ (backendsRun w st).1, ∃ b, e = Ev.backendCall b := by
  unfold backendsRun
  apply backendStep_events
  apply backendStep_events
  apply backendStep_events
  intro e he
  simp at he

theorem finishBackends_eq_error (w : World) (st : TraceState) (ret : RetVal)
    (rv : ResVal) (rec : Option TraceRecord) (tIn tCtx tSty : Option String)
    (cr : List String) (evs : List Ev) (e : Err)
    (h : backendsRun w st = (evs, some e)) :
    finishBackends w st ret rv rec tIn tCtx tSty cr =
      { res := .error e, tempIn := tIn, tempCtx := tCtx, tempSty := tSty,
        outEntered := true, created := cr, outputRead := true,
        rendererRan := true, record := rec, events := evs } := by
  unfold finishBackends
  rw [h]

theorem finishBackends_eq_ok (w : World) (st : TraceState) (ret : RetVal)
    (rv : ResVal) (rec : Option TraceRecord) (tIn tCtx tSty : Option String)
    (cr : List String) (evs : List Ev)
    (h : backendsRun w st = (evs, none)) :
    finishBackends w st ret rv rec tIn tCtx tSty cr =
      { res := .ok ret, tempIn := tIn, tempCtx := tCtx, tempSty := tSty,
        outEntered := true, created := cr, outputRead := true,
        rendererRan := true,
        record := rec.map (fun r => { r with result := some rv }),
        events := evs ++ (if rec.isSome then [Ev.attachResult] else []) } := by
  unfold finishBackends
  rw [h]

theorem resolveAux_ok_shape (w : World) (c : Option CtxArg) (nm : String)
    (o : Option String) (h : resolveAux w c nm = .ok o) :
    o = none ∨ o = some nm := by
  unfold resolveAux at h
  repeat any_goals split at h
  all_goals simp_all

theorem finishBackends_frame (w : World) (st : TraceState) (ret : RetVal)
    (rv : ResVal) (rec : Option TraceRecord) (tIn tCtx tSty : Option String)
    (cr : List String) :
    (finishBackends w st ret rv rec tIn tCtx tSty cr).created = cr ∧
    (finishBackends w st ret rv rec tIn tCtx tSty cr).tempIn = tIn ∧
    (finishBackends w st ret rv rec tIn tCtx tSty cr).tempCtx = tCtx ∧
    (finishBackends w st ret rv rec tIn tCtx tSty cr).tempSty = tSty ∧
    (finishBackends w st ret rv rec tIn tCtx tSty cr).outEntered = true ∧
    (finishBackends w st ret rv rec tIn tCtx tSty cr).rendererRan = true := by
  rcases hbr : backendsRun w st with ⟨evs, err⟩
  cases err with
  | none =>
      rw [finishBackends_eq_ok w st ret rv rec tIn tCtx tSty cr evs hbr]
      exact ⟨rfl, rfl, rfl, rfl, rfl, rfl⟩
  | some e =>
      rw [finishBackends_eq_error w st ret rv rec tIn tCtx tSty cr evs e hbr]
      exact ⟨rfl, rfl, rfl, rfl, rfl, rfl⟩

theorem finishBackends_record (w : World) (st : TraceState) (ret : RetVal)
    (rv : ResVal) (rec : Option TraceRecord) (tIn tCtx tSty : Option String)
    (cr : List String) :
    (∀ e, (finishBackends w st ret rv rec tIn tCtx tSty cr).res = .error e →
      (finishBackends w st ret rv rec tIn tCtx tSty cr).record = rec) ∧
    (rec.isSome = true →
      ((finishBackends w st ret rv rec tIn tCtx tSty cr).record).isSome = true) := by
  rcases hbr : backendsRun w st with ⟨evs, err⟩
  cases err with
  | none =>
      rw [finishBackends_eq_ok w st ret rv rec tIn tCtx tSty cr evs hbr]
      refine ⟨fun e he => absurd he (by simp), fun hsome => ?_⟩
      simpa using hsome
  | some e =>
      rw [finishBackends_eq_error w st ret rv rec tIn tCtx tSty cr evs e hbr]
      exact ⟨fun _ _ => rfl, fun hsome => hsome⟩

theorem finishBackends_ok_inv (w : World) (st : TraceState) (ret : RetVal)
    (rv : ResVal) (rec : Option TraceRecord) (tIn tCtx tSty : Option String)
    (cr : List String) (v : RetVal)
    (h : (finishBackends w st ret rv rec tIn tCtx tSty cr).res = .ok v) :
    (finishBackends w st ret rv rec tIn tCtx tSty cr).record
      = rec.map (fun t => { t with result := some rv }) ∧
    ∃ evs, (finishBackends w st ret rv rec tIn tCtx tSty cr).events
        = evs ++ (if rec.isSome then [Ev.attachResult] else []) ∧
      ∀ e ∈ evs, ∃ b, e = Ev.backendCall b := by
  rcases hbr : backendsRun w st with ⟨evs, err⟩
  cases err with
  | some e =>
      rw [finishBackends_eq_error w st ret rv rec tIn tCtx tSty cr evs e hbr] at h
      exact absurd h (by simp)
  | none =>
      rw [finishBackends_eq_ok w st ret rv rec tIn tCtx tSty cr evs hbr]
      refine ⟨rfl, evs, rfl, fun e he => ?_⟩
      exact backendsRun_events w st e (by rw [hbr]; exact he)

theorem runAndFormat_nonzero (w : World) (st : TraceState) (chat : Bool)
    (op : String) (fmt : OutputFormat) (rec : Option TraceRecord)
    (tIn tCtx tSty : Option String) (cr : List String)
    (h0 : w.returncode ≠ 0) :
    runAndFormat w st chat op fmt rec tIn tCtx tSty cr =
      { res := .error (Err.renderFailed w.returncode), tempIn := tIn,
        tempCtx := tCtx, tempSty := tSty, outEntered := true, created := cr,
        outputRead := false, rendererRan := true, record := rec,
        events := [] } := by
  unfold runAndFormat
  rw [if_pos h0]

theorem runAndFormat_frame (w : World) (st : TraceState) (chat : Bool)
    (op : String) (fmt : OutputFormat) (rec : Option TraceRecord)
    (tIn tCtx tSty : Option String) (cr : List String) :
    (runAndFormat w st chat op fmt rec tIn tCtx tSty cr).created = cr ∧
    (runAndFormat w st chat op fmt rec tIn tCtx tSty cr).tempIn = tIn ∧
    (runAndFormat w st chat op fmt rec tIn tCtx tSty cr).tempCtx = tCtx ∧
    (runAndFormat w st chat op fmt rec tIn tCtx tSty cr).tempSty = tSty ∧
    (runAndFormat w st chat op fmt rec tIn tCtx tSty cr).outEntered = true ∧
    (runAndFormat w st chat op fmt rec tIn tCtx tSty cr).rendererRan = true := by
  unfold runAndFormat
  repeat any_goals split
  all_goals first
    | exact finishBackends_frame w st _ _ rec tIn tCtx tSty cr
    | exact ⟨rfl, rfl, rfl, rfl, rfl, rfl⟩

theorem runAndFormat_record (w : World) (st : TraceState) (chat : Bool)
    (op : String) (fmt : OutputFormat) (rec : Option TraceRecord)
    (tIn tCtx tSty : Option String) (cr : List String) :
    (∀ e, (runAndFormat w st chat op fmt rec tIn tCtx tSty cr).res = .error e →
      (runAndFormat w st chat op fmt rec tIn tCtx tSty cr).record = rec) ∧
    (rec.isSome = true →
      ((runAndFormat w st chat op fmt rec tIn tCtx tSty cr).record).isSome = true) := by
  unfold runAndFormat
  repeat any_goals split
  all_goals first
    | exact finishBackends_record w st _ _ rec tIn tCtx tSty cr
    | exact ⟨fun _ _ => rfl, fun hsome => hsome⟩

theorem runAndFormat_typed (w : World) (st : TraceState) (chat : Bool)
    (op : String) (fmt : OutputFormat) (rec : Option TraceRecord)
    (tIn tCtx tSty : Option String) (cr : List String)
    (hf : fmt = OutputFormat.pydantic ∨ fmt = OutputFormat.openaiChat ∨
      fmt = OutputFormat.langchain) :
    (runAndFormat w st chat op fmt rec tIn tCtx tSty cr).record = rec ∧
    (runAndFormat w st chat op fmt rec tIn tCtx tSty cr).events = [] := by
  rcases hf with rfl | rfl | rfl <;>
    · unfold runAndFormat
      repeat any_goals split
      all_goals first
        | exact ⟨rfl, rfl⟩
        | simp_all

theorem runAndFormat_rawdict_ok (w : World) (st : TraceState) (chat : Bool)
    (op : String) (fmt : OutputFormat) (rec : Option TraceRecord)
    (tIn tCtx tSty : Option String) (cr : List String) (v : RetVal)
    (hf : fmt = OutputFormat.raw ∨ fmt = OutputFormat.dict)
    (h : (runAndFormat w st chat op fmt rec tIn tCtx tSty cr).res = .ok v) :
    (∃ rv, (runAndFormat w st chat op fmt rec tIn tCtx tSty cr).record
        = rec.map (fun t => { t with result := some rv })) ∧
    ∃ evs, (runAndFormat w st chat op fmt rec tIn tCtx tSty cr).events
        = evs ++ (if rec.isSome then [Ev.attachResult] else []) ∧
      ∀ e ∈ evs, ∃ b, e = Ev.backendCall b := by
  by_cases h0 : w.returncode ≠ 0
  · rw [runAndFormat_nonzero w st chat op fmt rec tIn tCtx tSty cr h0] at h
    exact absurd h (by simp)
  · rcases hf with rfl | rfl
    · have heq : runAndFormat w st chat op OutputFormat.raw rec tIn tCtx tSty cr
          = finishBackends w st (RetVal.raw (w.readFile op))
              (ResVal.raw (w.readFile op)) rec tIn tCtx tSty cr := by
        unfold runAndFormat
        rw [if_neg h0, if_pos rfl]
      rw [heq] at h ⊢
      obtain ⟨h1, h2⟩ := finishBackends_ok_inv w st _ _ rec tIn tCtx tSty cr v h
      exact ⟨⟨ResVal.raw (w.readFile op), h1⟩, h2⟩
    · cases hp : w.jsonParse (w.readFile op) with
      | none =>
          have heq : runAndFormat w st chat op OutputFormat.dict rec tIn tCtx tSty cr
              = { res := .error Err.jsonError, tempIn := tIn, tempCtx := tCtx,
                  tempSty := tSty, outEntered := true, created := cr,
                  outputRead := true, rendererRan := true, record := rec,
                  events := [] } := by
            unfold runAndFormat
            rw [if_neg h0]
            simp [hp]
          rw [heq] at h
          exact absurd h (by simp)
      | some pv =>
          have heq : runAndFormat w st chat op OutputFormat.dict rec tIn tCtx tSty cr
              = finishBackends w st (RetVal.dict pv) (ResVal.json pv)
                  rec tIn tCtx tSty cr := by
            unfold runAndFormat
            rw [if_neg h0]
            simp [hp]
          rw [heq] at h ⊢
          obtain ⟨h1, h2⟩ := finishBackends_ok_inv w st _ _ rec tIn tCtx tSty cr v h
          exact ⟨⟨ResVal.json pv, h1⟩, h2⟩

theorem pomlWith_eq_ctx_error (w : World) (st : TraceState) (mp : String)
    (tIn : Option String) (cr0 : List String) (c s : Option CtxArg)
    (chat : Bool) (out : Option String) (fmt : OutputFormat)
    (rec : Option TraceRecord) (p : String)
    (hc : resolveAux w c w.tmpCtxName = .error p) :
    pomlWith w st mp tIn cr0 c s chat out fmt rec =
      { res := .error (Err.fileNotFound p), tempIn := tIn, tempCtx := none,
        tempSty := none, outEntered := true, created := cr0 ++ [w.tmpOutName],
        outputRead := false, rendererRan := false, record := rec,
        events := [] } := by
  simp only [pomlWith, hc]

theorem pomlWith_eq_sty_error (w : World) (st : TraceState) (mp : String)
    (tIn : Option String) (cr0 : List String) (c s : Option CtxArg)
    (chat : Bool) (out : Option String) (fmt : OutputFormat)
    (rec : Option TraceRecord) (tCtx : Option String) (p : String)
    (hc : resolveAux w c w.tmpCtxName = .ok tCtx)
    (hs : resolveAux w s w.tmpStyName = .error p) :
    pomlWith w st mp tIn cr0 c s chat out fmt rec =
      { res := .error (Err.fileNotFound p), tempIn := tIn, tempCtx := tCtx,
        tempSty := none, outEntered := true,
        created := (cr0 ++ [w.tmpOutName]) ++ tCtx.toList,
        outputRead := false, rendererRan := false, record := rec,
        events := [] } := by
  simp only [pomlWith, hc, hs]

theorem pomlWith_eq_main (w : World) (st : TraceState) (mp : String)
    (tIn : Option String) (cr0 : List String) (c s : Option CtxArg)
    (chat : Bool) (out : Option String) (fmt : OutputFormat)
    (rec : Option TraceRecord) (tCtx tSty : Option String)
    (hc : resolveAux w c w.tmpCtxName = .ok tCtx)
    (hs : resolveAux w s w.tmpStyName = .ok tSty) :
    pomlWith w st mp tIn cr0 c s chat out fmt rec =
      runAndFormat w st chat (out.getD w.tmpOutName) fmt rec tIn tCtx tSty
        (((cr0 ++ [w.tmpOutName]) ++ tCtx.toList) ++ tSty.toList) := by
  simp only [pomlWith, hc, hs]

theorem pomlTry_eq_path_missing (w : World) (st : TraceState) (p : String)
    (c s : Option CtxArg) (chat : Bool) (out : Option String)
    (fmt : OutputFormat) (hp : w.fsExists p = false) :
    pomlTry w st (MarkupArg.path p) c s chat out fmt =
      { res := .error (Err.fileNotFound p), tempIn := none, tempCtx := none,
        tempSty := none, outEntered := false, created := [],
        outputRead := false, rendererRan := false,
        record := if st.traceEnabled then
          some (buildTraceRecord w (MarkupArg.path p) c s) else none,
        events := [] } := by
  simp [pomlTry, hp]

theorem pomlTry_eq_path_exists (w : World) (st : TraceState) (p : String)
    (c s : Option CtxArg) (chat : Bool) (out : Option String)
    (fmt : OutputFormat) (hp : w.fsExists p = true) :
    pomlTry w st (MarkupArg.path p) c s chat out fmt =
      pomlWith w st p none [] c s chat out fmt
        (if st.traceEnabled then
          some (buildTraceRecord w (MarkupArg.path p) c s) else none) := by
  simp [pomlTry, hp]

theorem pomlTry_eq_str_exists (w : World) (st : TraceState) (sm : String)
    (c s : Option CtxArg) (chat : Bool) (out : Option String)
    (fmt : OutputFormat) (hp : w.fsExists sm = true) :
    pomlTry w st (MarkupArg.str sm) c s chat out fmt =
      pomlWith w st sm none [] c s chat out fmt
        (if st.traceEnabled then
          some (buildTraceRecord w (MarkupArg.str sm) c s) else none) := by
  simp [pomlTry, hp]

theorem pomlTry_eq_str_inline (w : World) (st : TraceState) (sm : String)
    (c s : Option CtxArg) (chat : Bool) (out : Option String)
    (fmt : OutputFormat) (hp : w.fsExists sm = false) :
    pomlTry w st (MarkupArg.str sm) c s chat out fmt =
      pomlWith w st w.tmpInName (some w.tmpInName) [w.tmpInName]
        c s chat out fmt
        (if st.traceEnabled then
          some (buildTraceRecord w (MarkupArg.str sm) c s) else none) := by
  simp [pomlTry, hp]

theorem mem_deletedOf_names (w : World) (t : TryOut)
    (htIn : t.tempIn = none ∨ t.tempIn = some w.tmpInName)
    (htc : t.tempCtx = none ∨ t.tempCtx = some w.tmpCtxName)
    (hts : t.tempSty = none ∨ t.tempSty = some w.tmpStyName) :
    ∀ f ∈ deletedOf w t,
      f = w.tmpOutName ∨ f = w.tmpInName ∨ f = w.tmpCtxName ∨
        f = w.tmpStyName := by
  intro f hf
  unfold deletedOf at hf
  cases hoe : t.outEntered <;>
    rcases htIn with h1 | h1 <;> rcases htc with h2 | h2 <;>
      rcases hts with h3 | h3 <;>
        simp [hoe, h1, h2, h3] at hf <;> tauto

theorem pomlWith_cleanup (w : World) (st : TraceState) (mp : String)
    (c s : Option CtxArg) (chat : Bool) (out : Option String)
    (fmt : OutputFormat) (rec : Option TraceRecord) (tIn : Option String)
    (htIn : tIn = none ∨ tIn = some w.tmpInName) :
    (deletedOf w (pomlWith w st mp tIn tIn.toList c s chat out fmt rec)).Perm
      (pomlWith w st mp tIn tIn.toList c s chat out fmt rec).created ∧
    ∀ f ∈ deletedOf w (pomlWith w st mp tIn tIn.toList c s chat out fmt rec),
      f = w.tmpOutName ∨ f = w.tmpInName ∨ f = w.tmpCtxName ∨
        f = w.tmpStyName := by
  cases hc : resolveAux w c w.tmpCtxName with
  | error p =>
      rw [pomlWith_eq_ctx_error w st mp tIn _ c s chat out fmt rec p hc]
      constructor
      · unfold deletedOf
        simp only [if_true, Option.toList_none, List.append_nil]
        exact List.perm_append_comm
      · exact mem_deletedOf_names w _ htIn (Or.inl rfl) (Or.inl rfl)
  | ok tCtx =>
      have hCtx := resolveAux_ok_shape w c w.tmpCtxName tCtx hc
      cases hs2 : resolveAux w s w.tmpStyName with
      | error p =>
          rw [pomlWith_eq_sty_error w st mp tIn _ c s chat out fmt rec tCtx p
            hc hs2]
          constructor
          · unfold deletedOf
            simp only [if_true, Option.toList_none, List.append_nil]
            exact List.perm_append_comm.append_right _
          · exact mem_deletedOf_names w _ htIn hCtx (Or.inl rfl)
      | ok tSty =>
          have hSty := resolveAux_ok_shape w s w.tmpStyName tSty hs2
          rw [pomlWith_eq_main w st mp tIn _ c s chat out fmt rec tCtx tSty
            hc hs2]
          obtain ⟨f1, f2, f3, f4, f5, f6⟩ := runAndFormat_frame w st chat
            (out.getD w.tmpOutName) fmt rec tIn tCtx tSty
            (((tIn.toList ++ [w.tmpOutName]) ++ tCtx.toList) ++ tSty.toList)
          constructor
          · unfold deletedOf
            rw [f1, f2, f3, f4, f5]
            simp only [if_true]
            exact (List.perm_append_comm.append_right _).append_right _
          · intro f hf
            refine mem_deletedOf_names w _ ?_ ?_ ?_ f hf
            · rw [f2]; exact htIn
            · rw [f3]; exact hCtx
            · rw [f4]; exact hSty

/-- C5: every temp file a `poml` call creates — inline-markup input,
serialized context, serialized stylesheet, internal output — is deleted by
the call's cleanup on every exit path, and nothing but those generated temp
files is ever deleted, so a caller-supplied output target distinct from the
generated temp names is never deleted. -/
theorem poml_temp_cleanup (w : World) (st : TraceState) (m : MarkupArg)
    (c s : Option CtxArg) (chat : Bool) (out : Option String)
    (fmt : OutputFormat) :
    ((poml w st m c s chat out fmt).deleted).Perm
      ((poml w st m c s chat out fmt).created) ∧
    (∀ f ∈ (poml w st m c s chat out fmt).deleted,
      f = w.tmpOutName ∨ f = w.tmpInName ∨ f = w.tmpCtxName ∨
        f = w.tmpStyName) ∧
    (∀ p, out = some p → p ≠ w.tmpOutName → p ≠ w.tmpInName →
      p ≠ w.tmpCtxName → p ≠ w.tmpStyName →
      p ∉ (poml w st m c s chat out fmt).deleted) := by
  have main : (deletedOf w (pomlTry w st m c s chat out fmt)).Perm
      (pomlTry w st m c s chat out fmt).created ∧
      ∀ f ∈ deletedOf w (pomlTry w st m c s chat out fmt),
        f = w.tmpOutName ∨ f = w.tmpInName ∨ f = w.tmpCtxName ∨
          f = w.tmpStyName := by
    cases m with
    | path p =>
        cases hp : w.fsExists p with
        | false =>
            rw [pomlTry_eq_path_missing w st p c s chat out fmt hp]
            constructor
            · unfold deletedOf
              simp
            · exact mem_deletedOf_names w _ (Or.inl rfl) (Or.inl rfl)
                (Or.inl rfl)
        | true =>
            rw [pomlTry_eq_path_exists w st p c s chat out fmt hp]
            exact pomlWith_cleanup w st p c s chat out fmt _ none (Or.inl rfl)
    | str sm =>
        cases hp : w.fsExists sm with
        | true =>
            rw [pomlTry_eq_str_exists w st sm c s chat out fmt hp]
            exact pomlWith_cleanup w st sm c s chat out fmt _ none (Or.inl rfl)
        | false =>
            rw [pomlTry_eq_str_inline w st sm c s chat out fmt hp]
            exact pomlWith_cleanup w st w.tmpInName c s chat out fmt _
              (some w.tmpInName) (Or.inr rfl)
  refine ⟨main.1, main.2, ?_⟩
  intro p hout h1 h2 h3 h4 hmem
  rcases main.2 p hmem with h | h | h | h
  · exact h1 h
  · exact h2 h
  · exact h3 h
  · exact h4 h

/-- Witness for C5 at a concrete call: the temp files created equal those
deleted, and the caller-supplied output target `/user/out.json` is not
deleted. -/
theorem poml_temp_cleanup_witness :
    ((poml w0 stLoc (MarkupArg.str "x") none none true (some "/user/out.json")
      OutputFormat.dict).deleted).Perm
      ((poml w0 stLoc (MarkupArg.str "x") none none true (some "/user/out.json")
        OutputFormat.dict).created) ∧
    "/user/out.json" ∉ (poml w0 stLoc (MarkupArg.str "x") none none true
      (some "/user/out.json") OutputFormat.dict).deleted :=
  ⟨(poml_temp_cleanup w0 stLoc (MarkupArg.str "x") none none true
      (some "/user/out.json") OutputFormat.dict).1,
   (poml_temp_cleanup w0 stLoc (MarkupArg.str "x") none none true
      (some "/user/out.json") OutputFormat.dict).2.2 "/user/out.json" rfl
      (by decide) (by decide) (by decide) (by decide)⟩

theorem pomlWith_nonzero (w : World) (st : TraceState) (mp : String)
    (tIn : Option String) (cr0 : List String) (c s : Option CtxArg)
    (chat : Bool) (out : Option String) (fmt : OutputFormat)
    (rec : Option TraceRecord) (h0 : w.returncode ≠ 0)
    (hr : (pomlWith w st mp tIn cr0 c s chat out fmt rec).rendererRan = true) :
    (pomlWith w st mp tIn cr0 c s chat out fmt rec).res
      = .error (Err.renderFailed w.returncode) ∧
    (pomlWith w st mp tIn cr0 c s chat out fmt rec).outputRead = false := by
  cases hc : resolveAux w c w.tmpCtxName with
  | error p =>
      rw [pomlWith_eq_ctx_error w st mp tIn cr0 c s chat out fmt rec p hc] at hr
      exact absurd hr (by simp)
  | ok tCtx =>
      cases hs2 : resolveAux w s w.tmpStyName with
      | error p =>
          rw [pomlWith_eq_sty_error w st mp tIn cr0 c s chat out fmt rec tCtx p
            hc hs2] at hr
          exact absurd hr (by simp)
      | ok tSty =>
          rw [pomlWith_eq_main w st mp tIn cr0 c s chat out fmt rec tCtx tSty
            hc hs2,
            runAndFormat_nonzero w st chat (out.getD w.tmpOutName) fmt rec
              tIn tCtx tSty _ h0]
          exact ⟨rfl, rfl⟩

/-- C6: whenever the renderer subprocess actually ran and exited non-zero,
the `poml` call fails with a render-failed error carrying that exit code,
and the output file is never read (so no partial result can be built). -/
theorem poml_render_failed (w : World) (st : TraceState) (m : MarkupArg)
    (c s : Option CtxArg) (chat : Bool) (out : Option String)
    (fmt : OutputFormat) (h0 : w.returncode ≠ 0)
    (hr : (poml w st m c s chat out fmt).rendererRan = true) :
    (poml w st m c s chat out fmt).result
      = .error (Err.renderFailed w.returncode) ∧
    (poml w st m c s chat out fmt).outputRead = false := by
  have hr2 : (pomlTry w st m c s chat out fmt).rendererRan = true := hr
  have main : (pomlTry w st m c s chat out fmt).res
        = .error (Err.renderFailed w.returncode) ∧
      (pomlTry w st m c s chat out fmt).outputRead = false := by
    cases m with
    | path p =>
        cases hp : w.fsExists p with
        | false =>
            rw [pomlTry_eq_path_missing w st p c s chat out fmt hp] at hr2
            exact absurd hr2 (by simp)
        | true =>
            rw [pomlTry_eq_path_exists w st p c s chat out fmt hp] at hr2 ⊢
            exact pomlWith_nonzero w st p none [] c s chat out fmt _ h0 hr2
    | str sm =>
        cases hp : w.fsExists sm with
        | true =>
            rw [pomlTry_eq_str_exists w st sm c s chat out fmt hp] at hr2 ⊢
            exact pomlWith_nonzero w st sm none [] c s chat out fmt _ h0 hr2
        | false =>
            rw [pomlTry_eq_str_inline w st sm c s chat out fmt hp] at hr2 ⊢
            exact pomlWith_nonzero w st w.tmpInName (some w.tmpInName)
              [w.tmpInName] c s chat out fmt _ h0 hr2
  exact main

/-- Witness for C6: an exit code of 2 surfaces a render-failed error
containing 2, and the output is not read. -/
theorem poml_render_failed_witness :
    (poml w2 stLoc (MarkupArg.str "x") none none true none
      OutputFormat.dict).result = .error (Err.renderFailed 2) ∧
    (poml w2 stLoc (MarkupArg.str "x") none none true none
      OutputFormat.dict).outputRead = false :=
  poml_render_failed w2 stLoc (MarkupArg.str "x") none none true none
    OutputFormat.dict (by decide) rfl

theorem pomlWith_record (w : World) (st : TraceState) (mp : String)
    (tIn : Option String) (cr0 : List String) (c s : Option CtxArg)
    (chat : Bool) (out : Option String) (fmt : OutputFormat)
    (rec : Option TraceRecord) :
    (∀ e, (pomlWith w st mp tIn cr0 c s chat out fmt rec).res = .error e →
      (pomlWith w st mp tIn cr0 c s chat out fmt rec).record = rec) ∧
    (rec.isSome = true →
      ((pomlWith w st mp tIn cr0 c s chat out fmt rec).record).isSome
        = true) := by
  cases hc : resolveAux w c w.tmpCtxName with
  | error p =>
      rw [pomlWith_eq_ctx_error w st mp tIn cr0 c s chat out fmt rec p hc]
      exact ⟨fun _ _ => rfl, fun h => h⟩
  | ok tCtx =>
      cases hs2 : resolveAux w s w.tmpStyName with
      | error p =>
          rw [pomlWith_eq_sty_error w st mp tIn cr0 c s chat out fmt rec tCtx p
            hc hs2]
          exact ⟨fun _ _ => rfl, fun h => h⟩
      | ok tSty =>
          rw [pomlWith_eq_main w st mp tIn cr0 c s chat out fmt rec tCtx tSty
            hc hs2]
          exact runAndFormat_record w st chat (out.getD w.tmpOutName) fmt rec
            tIn tCtx tSty _

theorem pomlTry_record_spec (w : World) (st : TraceState)
    (m : MarkupArg) (c s : Option CtxArg) (chat : Bool) (out : Option String)
    (fmt : OutputFormat) (ht : st.traceEnabled = true) :
    ((pomlTry w st m c s chat out fmt).record).isSome = true ∧
    ∀ e, (pomlTry w st m c s chat out fmt).res = .error e →
      (pomlTry w st m c s chat out fmt).record
        = some (buildTraceRecord w m c s) := by
  have hrec : (if st.traceEnabled then some (buildTraceRecord w m c s)
      else none) = some (buildTraceRecord w m c s) := by
    rw [ht]
    rfl
  cases m with
  | path p =>
      cases hp : w.fsExists p with
      | false =>
          rw [pomlTry_eq_path_missing w st p c s chat out fmt hp]
          rw [hrec]
          exact ⟨rfl, fun _ _ => rfl⟩
      | true =>
          rw [pomlTry_eq_path_exists w st p c s chat out fmt hp, hrec]
          obtain ⟨h1, h2⟩ := pomlWith_record w st p none [] c s chat out fmt
            (some (buildTraceRecord w (MarkupArg.path p) c s))
          exact ⟨h2 rfl, h1⟩
  | str sm =>
      cases hp : w.fsExists sm with
      | true =>
          rw [pomlTry_eq_str_exists w st sm c s chat out fmt hp, hrec]
          obtain ⟨h1, h2⟩ := pomlWith_record w st sm none [] c s chat out fmt
            (some (buildTraceRecord w (MarkupArg.str sm) c s))
          exact ⟨h2 rfl, h1⟩
      | false =>
          rw [pomlTry_eq_str_inline w st sm c s chat out fmt hp, hrec]
          obtain ⟨h1, h2⟩ := pomlWith_record w st w.tmpInName
            (some w.tmpInName) [w.tmpInName] c s chat out fmt
            (some (buildTraceRecord w (MarkupArg.str sm) c s))
          exact ⟨h2 rfl, h1⟩

/-- C9: with tracing enabled at the start of a `poml` call, a trace record is
appended on every exit path — markup not found, renderer failure, JSON or
validation errors, backend raises, and success alike — and on every failing
path the appended record as built carries no result field. -/
theorem poml_trace_record_all_paths (w : World) (st : TraceState)
    (m : MarkupArg) (c s : Option CtxArg) (chat : Bool) (out : Option String)
    (fmt : OutputFormat) (ht : st.traceEnabled = true) :
    ((poml w st m c s chat out fmt).appended).isSome = true ∧
    (∀ e, (poml w st m c s chat out fmt).result = .error e →
      (poml w st m c s chat out fmt).appended
        = some (buildTraceRecord w m c s)) ∧
    (buildTraceRecord w m c s).result = none := by
  obtain ⟨h1, h2⟩ := pomlTry_record_spec w st m c s chat out fmt ht
  exact ⟨h1, h2, rfl⟩

/-- Witness for C9: a renderer failure with tracing enabled appends the
(resultless) trace record. -/
theorem poml_trace_record_witness :
    ((poml w2 stLoc (MarkupArg.str "x") none none true none
      OutputFormat.dict).appended).isSome = true ∧
    (poml w2 stLoc (MarkupArg.str "x") none none true none
      OutputFormat.dict).appended
      = some (buildTraceRecord w2 (MarkupArg.str "x") none none) :=
  ⟨(poml_trace_record_all_paths w2 stLoc (MarkupArg.str "x") none none true
      none OutputFormat.dict rfl).1,
   (poml_trace_record_all_paths w2 stLoc (MarkupArg.str "x") none none true
      none OutputFormat.dict rfl).2.1 (Err.renderFailed 2) rfl⟩

theorem pomlWith_typed (w : World) (st : TraceState) (mp : String)
    (tIn : Option String) (cr0 : List String) (c s : Option CtxArg)
    (chat : Bool) (out : Option String) (fmt : OutputFormat)
    (rec : Option TraceRecord)
    (hf : fmt = OutputFormat.pydantic ∨ fmt = OutputFormat.openaiChat ∨
      fmt = OutputFormat.langchain) :
    (pomlWith w st mp tIn cr0 c s chat out fmt rec).record = rec ∧
    (pomlWith w st mp tIn cr0 c s chat out fmt rec).events = [] := by
  cases hc : resolveAux w c w.tmpCtxName with
  | error p =>
      rw [pomlWith_eq_ctx_error w st mp tIn cr0 c s chat out fmt rec p hc]
      exact ⟨rfl, rfl⟩
  | ok tCtx =>
      cases hs2 : resolveAux w s w.tmpStyName with
      | error p =>
          rw [pomlWith_eq_sty_error w st mp tIn cr0 c s chat out fmt rec tCtx p
            hc hs2]
          exact ⟨rfl, rfl⟩
      | ok tSty =>
          rw [pomlWith_eq_main w st mp tIn cr0 c s chat out fmt rec tCtx tSty
            hc hs2]
          exact runAndFormat_typed w st chat (out.getD w.tmpOutName) fmt rec
            tIn tCtx tSty _ hf

theorem pomlWith_ok (w : World) (st : TraceState) (mp : String)
    (tIn : Option String) (cr0 : List String) (c s : Option CtxArg)
    (chat : Bool) (out : Option String) (fmt : OutputFormat)
    (rec : Option TraceRecord) (v : RetVal)
    (hf : fmt = OutputFormat.raw ∨ fmt = OutputFormat.dict)
    (h : (pomlWith w st mp tIn cr0 c s chat out fmt rec).res = .ok v) :
    (∃ rv, (pomlWith w st mp tIn cr0 c s chat out fmt rec).record
        = rec.map (fun t => { t with result := some rv })) ∧
    ∃ evs, (pomlWith w st mp tIn cr0 c s chat out fmt rec).events
        = evs ++ (if rec.isSome then [Ev.attachResult] else []) ∧
      ∀ e ∈ evs, ∃ b, e = Ev.backendCall b := by
  cases hc : resolveAux w c w.tmpCtxName with
  | error p =>
      rw [pomlWith_eq_ctx_error w st mp tIn cr0 c s chat out fmt rec p hc] at h
      exact absurd h (by simp)
  | ok tCtx =>
      cases hs2 : resolveAux w s w.tmpStyName with
      | error p =>
          rw [pomlWith_eq_sty_error w st mp tIn cr0 c s chat out fmt rec tCtx p
            hc hs2] at h
          exact absurd h (by simp)
      | ok tSty =>
          rw [pomlWith_eq_main w st mp tIn cr0 c s chat out fmt rec tCtx tSty
            hc hs2] at h ⊢
          exact runAndFormat_rawdict_ok w st chat (out.getD w.tmpOutName) fmt
            rec tIn tCtx tSty _ v hf h

/-- C1 counterexample: with tracing enabled, a successful `openai_chat`
render returns before the attach, so its record is appended with no result;
and with the weave backend raising, a `dict` render fails after backend
forwarding started, and its record is likewise appended without the result —
backend forwarding does not run after the attach, it runs before it. -/
theorem poml_attach_counterexample :
    (poml w0 stLoc (MarkupArg.str "<p>hi</p>") none none true none
      OutputFormat.openaiChat).result = .ok (RetVal.openaiChat []) ∧
    ((poml w0 stLoc (MarkupArg.str "<p>hi</p>") none none true none
      OutputFormat.openaiChat).appended).isSome = true ∧
    ((poml w0 stLoc (MarkupArg.str "<p>hi</p>") none none true none
      OutputFormat.openaiChat).appended.bind (fun r => r.result)) = none ∧
    (poml w1 stWv (MarkupArg.str "<p>hi</p>") none none true none
      OutputFormat.dict).result = .error (Err.backendRaised "weave") ∧
    ((poml w1 stWv (MarkupArg.str "<p>hi</p>") none none true none
      OutputFormat.dict).appended.bind (fun r => r.result)) = none :=
  ⟨rfl, rfl, rfl, rfl, rfl⟩

/-- C1 (amended): with tracing enabled, for `raw`/`dict` formats a fully
successful call (backend forwarding included) attaches the parsed result to
the trace record and appends it, with the attach happening after all backend
calls; if any step fails — backend forwarding included — the record is
appended without a result; and for the typed formats
(`pydantic`/`openai_chat`/`langchain`) the call returns before both the
backend blocks and the attach, so the record is appended without a result
and no backend or attach event occurs. -/
theorem poml_attach_behavior (w : World) (st : TraceState) (m : MarkupArg)
    (c s : Option CtxArg) (chat : Bool) (out : Option String)
    (fmt : OutputFormat) (ht : st.traceEnabled = true) :
    ((fmt = OutputFormat.pydantic ∨ fmt = OutputFormat.openaiChat ∨
        fmt = OutputFormat.langchain) →
      (poml w st m c s chat out fmt).appended
          = some (buildTraceRecord w m c s) ∧
      (poml w st m c s chat out fmt).events = []) ∧
    (∀ v, (fmt = OutputFormat.raw ∨ fmt = OutputFormat.dict) →
      (poml w st m c s chat out fmt).result = .ok v →
      (∃ rv, (poml w st m c s chat out fmt).appended
          = some { buildTraceRecord w m c s with result := some rv }) ∧
      (∃ evs, (poml w st m c s chat out fmt).events
          = evs ++ [Ev.attachResult] ∧
        ∀ e ∈ evs, ∃ b, e = Ev.backendCall b)) ∧
    (∀ e, (poml w st m c s chat out fmt).result = .error e →
      (poml w st m c s chat out fmt).appended
        = some (buildTraceRecord w m c s)) ∧
    (buildTraceRecord w m c s).result = none := by
  have hrec : (if st.traceEnabled then some (buildTraceRecord w m c s)
      else none) = some (buildTraceRecord w m c s) := by
    rw [ht]
    rfl
  have htyped : ∀ hf : fmt = OutputFormat.pydantic ∨
      fmt = OutputFormat.openaiChat ∨ fmt = OutputFormat.langchain,
      (pomlTry w st m c s chat out fmt).record
        = some (buildTraceRecord w m c s) ∧
      (pomlTry w st m c s chat out fmt).events = [] := by
    intro hf
    cases m with
    | path p =>
        cases hp : w.fsExists p with
        | false =>
            rw [pomlTry_eq_path_missing w st p c s chat out fmt hp]
            exact ⟨hrec, rfl⟩
        | true =>
            rw [pomlTry_eq_path_exists w st p c s chat out fmt hp, hrec]
            exact pomlWith_typed w st p none [] c s chat out fmt _ hf
    | str sm =>
        cases hp : w.fsExists sm with
        | true =>
            rw [pomlTry_eq_str_exists w st sm c s chat out fmt hp, hrec]
            exact pomlWith_typed w st sm none [] c s chat out fmt _ hf
        | false =>
            rw [pomlTry_eq_str_inline w st sm c s chat out fmt hp, hrec]
            exact pomlWith_typed w st w.tmpInName (some w.tmpInName)
              [w.tmpInName] c s chat out fmt _ hf
  have hok : ∀ v, (fmt = OutputFormat.raw ∨ fmt = OutputFormat.dict) →
      (pomlTry w st m c s chat out fmt).res = .ok v →
      (∃ rv, (pomlTry w st m c s chat out fmt).record
          = some { buildTraceRecord w m c s with result := some rv }) ∧
      (∃ evs, (pomlTry w st m c s chat out fmt).events
          = evs ++ [Ev.attachResult] ∧
        ∀ e ∈ evs, ∃ b, e = Ev.backendCall b) := by
    intro v hf h
    have key : ∀ (mp : String) (tIn : Option String),
        (pomlWith w st mp tIn tIn.toList c s chat out fmt
          (some (buildTraceRecord w m c s))).res = .ok v →
        (∃ rv, (pomlWith w st mp tIn tIn.toList c s chat out fmt
            (some (buildTraceRecord w m c s))).record
          = some { buildTraceRecord w m c s with result := some rv }) ∧
        (∃ evs, (pomlWith w st mp tIn tIn.toList c s chat out fmt
            (some (buildTraceRecord w m c s))).events
          = evs ++ [Ev.attachResult] ∧
          ∀ e ∈ evs, ∃ b, e = Ev.backendCall b) := by
      intro mp tIn hres
      obtain ⟨⟨rv, hrv⟩, evs, hevs, hbe⟩ := pomlWith_ok w st mp tIn tIn.toList
        c s chat out fmt (some (buildTraceRecord w m c s)) v hf hres
      refine ⟨⟨rv, ?_⟩, ⟨evs, ?_, hbe⟩⟩
      · simpa using hrv
      · simpa using hevs
    cases m with
    | path p =>
        cases hp : w.fsExists p with
        | false =>
            rw [pomlTry_eq_path_missing w st p c s chat out fmt hp] at h
            exact absurd h (by simp)
        | true =>
            rw [pomlTry_eq_path_exists w st p c s chat out fmt hp, hrec] at h ⊢
            exact key p none h
    | str sm =>
        cases hp : w.fsExists sm with
        | true =>
            rw [pomlTry_eq_str_exists w st sm c s chat out fmt hp, hrec] at h ⊢
            exact key sm none h
        | false =>
            rw [pomlTry_eq_str_inline w st sm c s chat out fmt hp, hrec] at h ⊢
            exact key w.tmpInName (some w.tmpInName) h
  have herr := (pomlTry_record_spec w st m c s chat out fmt ht).2
  exact ⟨htyped, hok, herr, rfl⟩

/-- Witness for the amended C1 theorem: a typed-format call appends the bare
record, and a successful dict call with the weave backend appends the record
with a result attached after the backend call. -/
theorem poml_attach_behavior_witness :
    (poml w0 stLoc (MarkupArg.str "m") none none true none
        OutputFormat.pydantic).appended
      = some (buildTraceRecord w0 (MarkupArg.str "m") none none) ∧
    (∃ rv, (poml w0 stWv (MarkupArg.str "m") none none true none
        OutputFormat.dict).appended
      = some { buildTraceRecord w0 (MarkupArg.str "m") none none with
          result := some rv }) ∧
    (∃ evs, (poml w0 stWv (MarkupArg.str "m") none none true none
        OutputFormat.dict).events = evs ++ [Ev.attachResult] ∧
      ∀ e ∈ evs, ∃ b, e = Ev.backendCall b) := by
  have h1 := (poml_attach_behavior w0 stLoc (MarkupArg.str "m") none none true
    none OutputFormat.pydantic rfl).1 (Or.inl rfl)
  have h2 := (poml_attach_behavior w0 stWv (MarkupArg.str "m") none none true
    none OutputFormat.dict rfl).2.1 (RetVal.dict (PyValue.list []))
    (Or.inr rfl) rfl
  exact ⟨h1.1, h2.1, h2.2⟩

/-- C8: calling `set_trace` with `False`, from any prior tracing state and
whatever the `trace_dir` argument, clock and environment, yields a state with
local, weave, agentops and mlflow tracing all disabled and no run directory,
and the call returns `None`. -/
theorem set_trace_false_resets (c : Clock) (env : Option String)
    (trace_dir : Option String) (prev : TraceState) :
    (set_trace c env (EnabledArg.bool false) trace_dir prev).st =
      ⟨false, false, false, false, none⟩ ∧
    (set_trace c env (EnabledArg.bool false) trace_dir prev).ret = none :=
  ⟨rfl, rfl⟩

/-- C2 counterexample: `set_trace("weave")` with no `trace_dir` argument and
no `POML_TRACE` environment value activates local and weave tracing but
returns `None` — the claimed non-none run directory does not exist. -/
theorem set_trace_weave_ret_none :
    (set_trace clk0 none (EnabledArg.single "weave") none st0).st.traceEnabled = true ∧
    (set_trace clk0 none (EnabledArg.single "weave") none st0).st.weaveEnabled = true ∧
    (set_trace clk0 none (EnabledArg.single "weave") none st0).ret = none :=
  ⟨rfl, rfl, rfl⟩

/-- C2 (amended): `set_trace("weave")` always yields a state with local and
weave tracing active; the returned run directory is non-none exactly when an
explicit `trace_dir` is supplied (then a fresh timestamp subdirectory) or,
failing that, when the `POML_TRACE` environment value is set and non-empty
(then that directory itself). -/
theorem set_trace_weave_activates (c : Clock) (env : Option String)
    (trace_dir : Option String) (prev : TraceState) :
    (set_trace c env (EnabledArg.single "weave") trace_dir prev).st.traceEnabled = true ∧
    (set_trace c env (EnabledArg.single "weave") trace_dir prev).st.weaveEnabled = true ∧
    (set_trace c env (EnabledArg.single "weave") trace_dir prev).ret =
      (match trace_dir with
       | some base => some (base ++ "/" ++ strftimeTs c)
       | none =>
           match env with
           | some e => if e = "" then none else some e
           | none => none) := by
  cases trace_dir with
  | some base => exact ⟨rfl, rfl, rfl⟩
  | none =>
      cases env with
      | none => exact ⟨rfl, rfl, rfl⟩
      | some e =>
          by_cases he : e = ""
          · subst he
            exact ⟨rfl, rfl, rfl⟩
          · refine ⟨?_, ?_, ?_⟩ <;>
              simp [set_trace, normalizeEnabled, he]

/-- C3 counterexample: with no explicit `trace_dir` and the environment
fallback `POML_TRACE=/tmp/t`, `set_trace(True)` stores `/tmp/t` itself as the
run directory and creates only that directory — no subdirectory named by the
timestamp is created or stored, although a directory was resolved. -/
theorem set_trace_env_no_timestamp :
    (set_trace clk0 (some "/tmp/t") (EnabledArg.bool true) none st0).st.traceDir
      = some "/tmp/t" ∧
    (set_trace clk0 (some "/tmp/t") (EnabledArg.bool true) none st0).mkdirs
      = ["/tmp/t"] ∧
    (set_trace clk0 (some "/tmp/t") (EnabledArg.bool true) none st0).st.traceDir
      ≠ some ("/tmp/t" ++ "/" ++ strftimeTs clk0) :=
  ⟨rfl, rfl, by decide⟩

/-- C3 (amended): when `set_trace` activates local tracing and an explicit
`trace_dir` is given, it creates that directory and a subdirectory named by
the 20-digit timestamp (year, month, day, hour, minute, second, microsecond)
and stores the subdirectory as the run directory; when the directory comes
from the `POML_TRACE` fallback instead, that directory itself is created
(parents as needed) and stored, with no timestamp subdirectory. -/
theorem set_trace_run_directory (c : Clock) (env : Option String)
    (prev : TraceState) (arg : EnabledArg) (base e : String)
    (hl : normalizeEnabled arg ≠ []) (he : e ≠ "")
    (hy : 1000 ≤ c.year) (hy2 : c.year ≤ 9999) (hm : c.month ≤ 12)
    (hd : c.day ≤ 31) (hh : c.hour ≤ 23) (hmin : c.minute ≤ 59)
    (hs : c.second ≤ 59) (hus : c.micro ≤ 999999) :
    (set_trace c env arg (some base) prev).st.traceDir
        = some (base ++ "/" ++ strftimeTs c) ∧
    (set_trace c env arg (some base) prev).mkdirs
        = [base, base ++ "/" ++ strftimeTs c] ∧
    (set_trace c (some e) arg none prev).st.traceDir = some e ∧
    (set_trace c (some e) arg none prev).mkdirs = [e] ∧
    (strftimeTs c).length = 20 ∧
    (∀ ch ∈ (strftimeTs c).data, ch.isDigit = true) := by
  obtain ⟨hlen, hdig⟩ := strftimeTs_twenty_digits c (by omega) (by omega)
    (by omega) (by omega) (by omega) (by omega) (by omega)
  refine ⟨?_, ?_, ?_, ?_, hlen, hdig⟩ <;>
    simp [set_trace, he, hl]

/-- Witness for the amended C3 theorem at a concrete clock, base directory
and environment value. -/
theorem set_trace_run_directory_witness :
    (set_trace clk0 none (EnabledArg.bool true) (some "/b") st0).st.traceDir
        = some ("/b" ++ "/" ++ strftimeTs clk0) ∧
    (set_trace clk0 none (EnabledArg.bool true) (some "/b") st0).mkdirs
        = ["/b", "/b" ++ "/" ++ strftimeTs clk0] ∧
    (set_trace clk0 (some "/e") (EnabledArg.bool true) none st0).st.traceDir
        = some "/e" ∧
    (set_trace clk0 (some "/e") (EnabledArg.bool true) none st0).mkdirs = ["/e"] ∧
    (strftimeTs clk0).length = 20 ∧
    (∀ ch ∈ (strftimeTs clk0).data, ch.isDigit = true) :=
  set_trace_run_directory clk0 none st0 (EnabledArg.bool true) "/b" "/e"
    (by decide) (by decide) (by decide) (by decide) (by decide) (by decide)
    (by decide) (by decide) (by decide) (by decide)

/-- C4 counterexample: over `["0001.a.poml", "0002.x.source.poml"]` the
`.source` entry is not excluded — its stem, with the `.source` marker
stripped, wins with index 2 over `0001.a` — and over the equal-index listing
`["0002.a.poml", "0002.b.poml"]` the first-listed entry wins, not the
lexicographically-last one. -/
theorem latest_stem_counterexample :
    latestTraceStem stLoc ["0001.a.poml", "0002.x.source.poml"]
      = some "/tr/run/0002.x" ∧
    latestTraceStem stLoc ["0002.a.poml", "0002.b.poml"]
      = some "/tr/run/0002.a" :=
  ⟨rfl, rfl⟩

/-- C4 (amended): `latestTraceStem` returns `none` when tracing is disabled
or no run directory is set; otherwise each listed name matching the
digit-prefix record pattern contributes its stem with any `.source` marker
stripped, and the run-dir-qualified stem of the first entry in listing order
whose parsed leading index is maximal is returned (ties keep the
earliest-listed entry).  Over `0001.x.poml`, `0002.x.poml`,
`0002.x.source.poml` the stem for `0002.x` is returned. -/
theorem latest_stem_spec (st : TraceState) (files : List String) :
    ((st.traceEnabled = false ∨ st.traceDir = none) →
      latestTraceStem st files = none) ∧
    (∀ dir, st.traceDir = some dir → st.traceEnabled = true →
      latestTraceStem st files =
        (firstMaxEntry (files.filterMap traceEntryIdx)).map
          (fun stem => dir ++ "/" ++ stem)) ∧
    latestTraceStem stLoc ["0001.x.poml", "0002.x.poml", "0002.x.source.poml"]
      = some "/tr/run/0002.x" := by
  refine ⟨?_, ?_, rfl⟩
  · rintro (hen | hdir)
    · unfold latestTraceStem
      cases st.traceDir with
      | none => rfl
      | some dir => simp [hen]
    · simp [latestTraceStem, hdir]
  · intro dir hdir hen
    simp [latestTraceStem, hdir, hen, latestStemFold_eq_firstMax]

/-- Witness for the amended C4 theorem: the disabled state yields `none`,
and an enabled state yields the mapped first-maximal stem. -/
theorem latest_stem_spec_witness :
    latestTraceStem st0 ["0001.x.poml"] = none ∧
    latestTraceStem stLoc ["0001.x.poml"] =
      (firstMaxEntry (["0001.x.poml"].filterMap traceEntryIdx)).map
        (fun stem => "/tr/run" ++ "/" ++ stem) :=
  ⟨(latest_stem_spec st0 ["0001.x.poml"]).1 (Or.inl rfl),
   (latest_stem_spec stLoc ["0001.x.poml"]).2.1 "/tr/run" rfl rfl⟩

/-! ### Claim theorems: output format converter -/

/-- C7: the openaiChat conversion maps speakers human→user,
assistant→assistant, system→system and fails with the unknown-speaker error
on any other speaker value; plain-text content becomes a plain-text message,
sequence content becomes a part array where text parts keep their text and
multimedia parts become base64 data-URL image parts, any other part failing
with the unsupported-part error; and with chat mode off the entire parsed
output is wrapped as a single human-speaker message before conversion. -/
theorem openai_chat_conversion :
    speakerToRole "human" = some "user" ∧
    speakerToRole "assistant" = some "assistant" ∧
    speakerToRole "system" = some "system" ∧
    (∀ s, s ≠ "human" → s ≠ "assistant" → s ≠ "system" → speakerToRole s = none) ∧
    (∀ s, speakerToRole s = none →
      ∀ ct, convOAMsg ⟨s, ct⟩ = .error (ConvErr.unknownSpeaker s)) ∧
    (∀ s role txt, speakerToRole s = some role →
      convOAMsg ⟨s, DynContent.str txt⟩ = .ok ⟨role, OAContent.text txt⟩) ∧
    (∀ s role ps, speakerToRole s = some role →
      convOAMsg ⟨s, DynContent.list ps⟩ =
        (convAll convOAPart ps).map (fun cs => ⟨role, OAContent.parts cs⟩)) ∧
    (∀ t, convOAPart (DynPart.str t) = .ok (OAPart.text t)) ∧
    (∀ ty b64 alt, convOAPart (DynPart.media ty b64 alt)
        = .ok (OAPart.imageUrl ("data:" ++ ty ++ ";base64," ++ b64))) ∧
    convOAPart DynPart.other = .error ConvErr.unexpectedPart ∧
    (∀ msgs, pomlResponseToOpenaiChat msgs = convAll convOAMsg msgs) ∧
    (∀ v, toPydanticList false v
        = (validateContent v).map (fun ct => [⟨Speaker.human, ct⟩])) ∧
    pomlResponseToOpenaiChat [⟨"human", DynContent.str "hi"⟩]
      = .ok [⟨"user", OAContent.text "hi"⟩] := by
  refine ⟨rfl, rfl, rfl, ?_, ?_, ?_, ?_, fun t => rfl, fun ty b64 alt => rfl,
    rfl, fun msgs => rfl, fun v => rfl, rfl⟩
  · intro s h1 h2 h3
    simp [speakerToRole, h1, h2, h3]
  · intro s hs ct
    simp [convOAMsg, hs]
  · intro s role txt hs
    simp [convOAMsg, hs]
  · intro s role ps hs
    simp [convOAMsg, hs]

/-- Witness for C7 at concrete inputs: the speaker `"ai"` is rejected, and a
mixed text/multimedia sequence converts to the documented shapes. -/
theorem openai_chat_conversion_witness :
    speakerToRole "ai" = none ∧
    convOAMsg ⟨"ai", DynContent.str "x"⟩
      = .error (ConvErr.unknownSpeaker "ai") ∧
    convOAMsg ⟨"human", DynContent.list
        [DynPart.str "see:", DynPart.media "image/png" "AAAA" (some "x")]⟩
      = .ok ⟨"user", OAContent.parts [OAPart.text "see:",
          OAPart.imageUrl "data:image/png;base64,AAAA"]⟩ := by
  have h := openai_chat_conversion
  have h1 : speakerToRole "ai" = none :=
    h.2.2.2.1 "ai" (by decide) (by decide) (by decide)
  refine ⟨h1, h.2.2.2.2.1 "ai" h1 (DynContent.str "x"), ?_⟩
  exact (h.2.2.2.2.2.2.1 "human" "user"
    [DynPart.str "see:", DynPart.media "image/png" "AAAA" (some "x")] rfl).trans rfl

theorem convAll_convOAPart_ok (ps : List RCPart) :
    ∃ cs, convAll convOAPart (ps.map RCPart.toDyn) = Except.ok cs := by
  induction ps with
  | nil => exact ⟨[], rfl⟩
  | cons p ps ih =>
      obtain ⟨cs, hcs⟩ := ih
      cases p with
      | text s =>
          exact ⟨OAPart.text s :: cs,
            by simp [RCPart.toDyn, convOAPart, convAll, hcs, Except.map]⟩
      | media ty b64 alt =>
          exact ⟨OAPart.imageUrl ("data:" ++ ty ++ ";base64," ++ b64) :: cs,
            by simp [RCPart.toDyn, convOAPart, convAll, hcs, Except.map]⟩

theorem convOAMsg_toDyn_ok (m : PomlMessageV) :
    ∃ om, convOAMsg m.toDyn = Except.ok om := by
  obtain ⟨sp, ct⟩ := m
  have hrole : ∃ role, speakerToRole (speakerStr sp) = some role := by
    cases sp <;> exact ⟨_, rfl⟩
  obtain ⟨role, hrole⟩ := hrole
  cases ct with
  | text s =>
      exact ⟨⟨role, OAContent.text s⟩,
        by simp [PomlMessageV.toDyn, RichContentV.toDyn, convOAMsg, hrole]⟩
  | parts ps =>
      obtain ⟨cs, hcs⟩ := convAll_convOAPart_ok ps
      exact ⟨⟨role, OAContent.parts cs⟩,
        by simp [PomlMessageV.toDyn, RichContentV.toDyn, convOAMsg, hrole, hcs, Except.map]⟩

theorem openaiChat_toDyn_ok (msgs : List PomlMessageV) :
    ∃ oms, pomlResponseToOpenaiChat (msgs.map PomlMessageV.toDyn)
      = Except.ok oms := by
  induction msgs with
  | nil => exact ⟨[], rfl⟩
  | cons m msgs ih =>
      obtain ⟨oms, homs⟩ := ih
      obtain ⟨om, hom⟩ := convOAMsg_toDyn_ok m
      refine ⟨om :: oms, ?_⟩
      simp only [pomlResponseToOpenaiChat, List.map_cons, convAll] at homs ⊢
      simp [hom, homs, Except.map]

/-- C10: every message that passed `PomlMessage` validation carries one of
the three recognized speakers, so the openaiChat converter can never return
the unknown-speaker error on a validated message list: that branch is
unreachable from the pydantic validation path. -/
theorem validated_no_unknown_speaker (msgs : List PomlMessageV) (s : String) :
    (∀ v m, validateMessage v = some m →
      speakerStr m.speaker = "human" ∨ speakerStr m.speaker = "assistant" ∨
      speakerStr m.speaker = "system") ∧
    pomlResponseToOpenaiChat (msgs.map PomlMessageV.toDyn)
      ≠ Except.error (ConvErr.unknownSpeaker s) := by
  constructor
  · intro v m _
    cases hm : m.speaker <;> simp [speakerStr]
  · obtain ⟨oms, homs⟩ := openaiChat_toDyn_ok msgs
    rw [homs]
    simp

/-- Witness for C10 at a concrete validated message list and speaker. -/
theorem validated_no_unknown_speaker_witness :
    pomlResponseToOpenaiChat
      ([⟨Speaker.human, RichContentV.text "hi"⟩].map PomlMessageV.toDyn)
      ≠ Except.error (ConvErr.unknownSpeaker "ai") :=
  (validated_no_unknown_speaker [⟨Speaker.human, RichContentV.text "hi"⟩] "ai").2

end Poml
